import Mathlib

/-!
Shallow embedding of the Quantum Tic-Tac-Toe game engine of this repository.

Server side (`src/townService/src/town/games/QuantumTicTacToeGame.ts`): the
orchestrator over three sub-boards, with join/leave/applyMove, hidden
per-piece occupancy, public visibility, per-board winners, scores and
termination detection.  Client side
(`src/frontend/src/classes/interactable/QuantumTicTacToeAreaController.ts`):
the per-viewer board projection computed in `_updateFrom`.

TypeScript mutable fields become fields of an explicit state record that the
operations thread; each operation returns the post-call state together with
the error it threw, if any (the state component of a throwing call is the
`this` state at the throw site, which for this code is always the entry
state, since every throw happens before any mutation).  Rows and columns are
`Int` because `_validateMove` checks `row < 0` at runtime.  The two pieces of
this repository that claims depend on but that are not under `src/` (the
`TicTacToeGame.join` / `TicTacToeGame.leave` calls that the orchestrator
propagates to the sub-boards) are modelled from the spec and marked as such.
-/

namespace QuantumTTT

/-- Player pieces (`PlayerPiece` in the source): `X` is the first joiner, `O` the second. -/
inductive Piece
  | X
  | O
deriving DecidableEq, Repr, Fintype

/-- The three sub-boards (`BoardID` in the source). -/
inductive BoardID
  | A
  | B
  | C
deriving DecidableEq, Repr, Fintype

/-- Game status values (`WAITING_TO_START`, `IN_PROGRESS`, `OVER`). -/
inductive GStatus
  | waitingToStart
  | inProgress
  | over
deriving DecidableEq, Repr

/-- The `InvalidParametersError` messages thrown by the game, as an error enum. -/
inductive GameErr
  | gameNotInProgress
  | playerNotInGame
  | notYourTurn
  | invalidPosition
  | positionNotEmpty
  | playerAlreadyInGame
  | gameFull
deriving DecidableEq, Repr

/-- The opposing piece. -/
def Piece.other : Piece → Piece
  | .X => .O
  | .O => .X

/-- A move recorded in one sub-board (`TicTacToeMove` in the source). -/
structure TTTMove where
  gamePiece : Piece
  row : Int
  col : Int
deriving DecidableEq, Repr

/-- A move of the quantum game (`QuantumTicTacToeMove` in the source). -/
structure QMove where
  board : BoardID
  row : Int
  col : Int
  gamePiece : Piece
deriving DecidableEq, Repr

/-- A `GameMove<QuantumTicTacToeMove>` command, as received by `applyMove`. -/
structure GameMove where
  playerID : String
  gameID : String
  move : QMove
deriving DecidableEq, Repr

/-- The observable state of one underlying `TicTacToeGame` instance, i.e. the
fields of `this._games[board].state` that `QuantumTicTacToeGame` reads or
writes (`moves`, `status`, `winner`, `x`, `o`). -/
structure SubState where
  moves : List TTTMove
  status : GStatus
  winner : Option String
  x : Option String
  o : Option String
deriving DecidableEq, Repr

/-- The `GameResult` stored in `this._result`: the game id and the
player-to-score record, kept as an association list in insertion order
(`x` first, then `o`, mirroring lines 329-335 of the source). -/
structure GameResult where
  gameID : String
  scores : List (String × Nat)
deriving DecidableEq, Repr

/-- Full state of one `QuantumTicTacToeGame` instance.  Fields `moves`,
`status`, `xScore`, `oScore`, `publiclyVisible`, `x`, `o`, `winner` mirror
`this.state`; `games` mirrors `this._games`; `xScoreP`, `oScoreP`,
`moveCount` mirror the private `_xScore`, `_oScore`, `_moveCount`;
`privateBoards` mirrors `_privateBoards`; `boardWinners` mirrors
`_boardWinners`; `result` mirrors `_result`; `id` is the game id of the base
class, constant over the instance's lifetime.  Boolean grids are modelled as
functions from (row, col) to `Bool`. -/
structure QState where
  id : String
  moves : List QMove
  status : GStatus
  xScore : Nat
  oScore : Nat
  publiclyVisible : BoardID → Int → Int → Bool
  x : Option String
  o : Option String
  winner : Option String
  games : BoardID → SubState
  xScoreP : Nat
  oScoreP : Nat
  moveCount : Nat
  privateBoards : Piece → BoardID → Int → Int → Bool
  boardWinners : BoardID → Option Piece
  result : Option GameResult

/-- Point update of a function out of a decidable type (used for `_games`
and `_boardWinners`, whose TypeScript counterparts are mutated per key). -/
def updF {α β : Type} [DecidableEq α] (f : α → β) (a : α) (v : β) : α → β :=
  fun a' => if a' = a then v else f a'

/-- Setting one cell of the `publiclyVisible` cube to `true` (the source
clones the structure and assigns the cell; as a function this is a point
update). -/
def setVis (vis : BoardID → Int → Int → Bool) (b : BoardID) (r c : Int) :
    BoardID → Int → Int → Bool :=
  fun b' r' c' => if b' = b ∧ r' = r ∧ c' = c then true else vis b' r' c'

/-- Setting one cell of `_privateBoards[piece][board]` to `true`. -/
def setPriv (pb : Piece → BoardID → Int → Int → Bool) (p : Piece) (b : BoardID)
    (r c : Int) : Piece → BoardID → Int → Int → Bool :=
  fun p' b' r' c' => if p' = p ∧ b' = b ∧ r' = r ∧ c' = c then true else pb p' b' r' c'

/-- `BOARD_IDS` from the source: the iteration order A, B, C. -/
def boardIds : List BoardID := [.A, .B, .C]

/-- The legal row/column indices, 0 to 2. -/
def range3 : List Int := [0, 1, 2]

/-- A fresh `TicTacToeGame` state (empty move list, `WAITING_TO_START`). -/
def initSub : SubState :=
  { moves := [], status := .waitingToStart, winner := none, x := none, o := none }

/-- `createEmptyVisibility()`: all cells hidden. -/
def emptyVis : BoardID → Int → Int → Bool := fun _ _ _ => false

/-- `createEmptyPrivateBoards()`: no hidden occupancy. -/
def emptyPriv : Piece → BoardID → Int → Int → Bool := fun _ _ _ _ => false

/-- The constructor state of `QuantumTicTacToeGame` (lines 85-99). -/
def initState (gid : String) : QState :=
  { id := gid
    moves := []
    status := .waitingToStart
    xScore := 0
    oScore := 0
    publiclyVisible := emptyVis
    x := none
    o := none
    winner := none
    games := fun _ => initSub
    xScoreP := 0
    oScoreP := 0
    moveCount := 0
    privateBoards := emptyPriv
    boardWinners := fun _ => none
    result := none }

/-- `_resetGameState` (lines 101-116): fresh sub-games, cleared private state,
and a replacement `this.state` object, which drops `x`, `o` and `winner`. -/
def resetGameState (s : QState) : QState :=
  initState s.id

/-- Modelled from the spec: `TicTacToeGame.join`, which is not under `src/`
(only its call sites in `_join` are).  The spec says a join "registers the
player with all three SubBoardEngines"; modelled as filling the first empty
slot (first joiner becomes `x`, the second becomes `o` and starts the board).
The full case is a no-op here; it is unreachable from the orchestrator, which
propagates a join only after accepting it itself. -/
def subJoin (sub : SubState) (pid : String) : SubState :=
  if sub.x = none then { sub with x := some pid }
  else if sub.o = none then { sub with o := some pid, status := .inProgress }
  else sub

/-- Modelled from the spec: `TicTacToeGame.leave`, which is not under `src/`
(only its call sites in `_leave` are, where its errors are swallowed).  The
spec says only that "leaving propagates to each sub-board engine; sub-board
leave errors are swallowed (a board may already be terminal)"; modelled as
ending the sub-board (the other player wins) and clearing the leaver's slot
when the leaver holds a slot, and as the swallowed-error no-op otherwise.
The sub-board's recorded moves are not touched. -/
def subLeave (sub : SubState) (pid : String) : SubState :=
  if sub.x = some pid ∨ sub.o = some pid then
    { sub with
      status := .over,
      winner := if sub.x = some pid then sub.o else sub.x,
      x := if sub.x = some pid then none else sub.x,
      o := if sub.o = some pid then none else sub.o }
  else sub

/-- `_join` (lines 118-147).  The public `join` of the missing base class
delegates to `_join`; the spec's description of `join` matches `_join`
verbatim, so joining is modelled as `_join` itself.  Both throws happen
before any mutation, so the state component of an error result is the entry
state. -/
def joinG (s : QState) (pid : String) : QState × Option GameErr :=
  if s.x = some pid ∨ s.o = some pid then (s, some .playerAlreadyInGame)
  else if s.x = none then
    ({ s with x := some pid, games := fun b => subJoin (s.games b) pid }, none)
  else if s.o = none then
    ({ s with
       o := some pid,
       status := .inProgress,
       winner := none,
       games := fun b => subJoin (s.games b) pid,
       moveCount := s.moves.length,
       result := none }, none)
  else (s, some .gameFull)

/-- `_leave` (lines 149-177).  The public `leave` of the missing base class
delegates to `_leave`; the spec's description of `leave` matches `_leave`
verbatim, so leaving is modelled as `_leave` itself.  The only throw happens
before any mutation. -/
def leaveG (s : QState) (pid : String) : QState × Option GameErr :=
  if ¬(s.x = some pid) ∧ ¬(s.o = some pid) then (s, some .playerNotInGame)
  else
    let s0 : QState := { s with games := fun b => subLeave (s.games b) pid }
    if s0.x.isSome ∧ s0.o.isSome then
      ({ s0 with
         status := .over,
         winner := if s.x = some pid then s0.o else s0.x,
         x := if s.x = some pid then none else s0.x,
         o := if s.o = some pid then none else s0.o }, none)
    else (resetGameState s0, none)

/-- Piece resolution in `_validateMove` (lines 188-195): the `x` slot is
checked before the `o` slot. -/
def pieceFor (s : QState) (pid : String) : Option Piece :=
  if s.x = some pid then some .X
  else if s.o = some pid then some .O
  else none

/-- `_validateMove` (lines 184-210), read-only over the state: status, slot
membership, turn parity, bounds, won target board, own hidden occupancy, in
this order. -/
def validateMove (s : QState) (m : GameMove) : Except GameErr Piece :=
  if s.status ≠ GStatus.inProgress then .error .gameNotInProgress
  else match pieceFor s m.playerID with
    | none => .error .playerNotInGame
    | some piece =>
      if (piece = .X ∧ s.moveCount % 2 = 1) ∨ (piece = .O ∧ s.moveCount % 2 = 0) then
        .error .notYourTurn
      else if m.move.row < 0 ∨ m.move.row > 2 ∨ m.move.col < 0 ∨ m.move.col > 2 then
        .error .invalidPosition
      else if (s.boardWinners m.move.board).isSome then .error .invalidPosition
      else if s.privateBoards piece m.move.board m.move.row m.move.col then
        .error .positionNotEmpty
      else .ok piece

/-- `_appendMoveToSubGame` (lines 212-219): append the move, force the
sub-board `IN_PROGRESS`, and copy the player slots from the top-level state. -/
def appendMoveToSubGame (sub : SubState) (mv : TTTMove) (x o : Option String) : SubState :=
  { sub with moves := sub.moves ++ [mv], status := .inProgress, x := x, o := o }

/-- `_markBoardAsWon` (lines 221-225). -/
def markWon (sub : SubState) (winnerID : Option String) : SubState :=
  { sub with status := .over, winner := winnerID }

/-- `_hasThreeInARow` (lines 344-360): the 8 lines, in the source's check
order (row i and column i for i = 0, 1, 2, then the two diagonals). -/
def hasThreeInARow (g : Int → Int → Bool) : Bool :=
  (g 0 0 && g 0 1 && g 0 2) || (g 0 0 && g 1 0 && g 2 0) ||
  (g 1 0 && g 1 1 && g 1 2) || (g 0 1 && g 1 1 && g 2 1) ||
  (g 2 0 && g 2 1 && g 2 2) || (g 0 2 && g 1 2 && g 2 2) ||
  (g 0 0 && g 1 1 && g 2 2) || (g 0 2 && g 1 1 && g 2 0)

/-- One iteration of the `_checkForWins` loop (lines 273-290) for one board:
skip boards that already have a winner, check the X grid first, then the O
grid; an award records the board winner, bumps the private score mirror and
marks the sub-board won with the corresponding player's id.  The boolean is
the contribution to `scoreChanged`. -/
def checkBoard (st : QState) (b : BoardID) : QState × Bool :=
  match st.boardWinners b with
  | some _ => (st, false)
  | none =>
    if hasThreeInARow (st.privateBoards .X b) then
      ({ st with
         boardWinners := updF st.boardWinners b (some .X),
         xScoreP := st.xScoreP + 1,
         games := updF st.games b (markWon (st.games b) st.x) }, true)
    else if hasThreeInARow (st.privateBoards .O b) then
      ({ st with
         boardWinners := updF st.boardWinners b (some .O),
         oScoreP := st.oScoreP + 1,
         games := updF st.games b (markWon (st.games b) st.o) }, true)
    else (st, false)

/-- `_checkForWins` (lines 271-298): scan the boards in order A, B, C, and,
when any score changed, publish the private score mirrors into `this.state`. -/
def checkForWins (st : QState) : QState :=
  let r1 := checkBoard st .A
  let r2 := checkBoard r1.1 .B
  let r3 := checkBoard r2.1 .C
  if r1.2 || r2.2 || r3.2 then
    { r3.1 with xScore := r3.1.xScoreP, oScore := r3.1.oScoreP }
  else r3.1

/-- The `scores` record built at lines 329-335: each occupied player slot is
mapped to its final score, `x` first then `o`. -/
def buildScores (x o : Option String) (xs os : Nat) : List (String × Nat) :=
  (match x with
    | some xid => [(xid, xs)]
    | none => []) ++
  (match o with
    | some oid => [(oid, os)]
    | none => [])

/-- `_checkForGameEnding` (lines 304-342): nothing to do when already `OVER`
or when some winnerless board still has fewer than 9 recorded moves;
otherwise end the game, declare the strictly-higher-scoring player's id the
winner (a tie leaves it unset), and record the result when any slot is
occupied. -/
def checkForGameEnding (st : QState) : QState :=
  if st.status = GStatus.over then st
  else if boardIds.any fun b =>
      (st.boardWinners b).isNone && decide ((st.games b).moves.length < 9) then st
  else
    let winner : Option String :=
      if st.xScoreP > st.oScoreP then st.x
      else if st.oScoreP > st.xScoreP then st.o
      else none
    let st1 : QState := { st with status := .over, winner := winner }
    let scores := buildScores st.x st.o st.xScoreP st.oScoreP
    if scores.isEmpty then st1
    else { st1 with result := some { gameID := st.id, scores := scores } }

/-- The tail of `applyMove` (lines 249-264): append the accepted move to the
authoritative log, refresh `_moveCount`, then run win detection and
termination detection. -/
def finishMove (s1 : QState) (m : GameMove) (piece : Piece) : QState × Option GameErr :=
  let newMove : QMove :=
    { board := m.move.board, row := m.move.row, col := m.move.col, gamePiece := piece }
  let updatedMoves := s1.moves ++ [newMove]
  let s2 : QState := { s1 with moves := updatedMoves, moveCount := updatedMoves.length }
  (checkForGameEnding (checkForWins s2), none)

/-- `applyMove` (lines 227-265).  Validation first; then the first recorded
sub-board move at the target cell decides the branch: no occupant marks the
hidden occupancy and appends to the sub-board, an occupant of the same piece
throws `PositionNotEmpty` (before any mutation), and an occupant of the other
piece is a collision, revealing the cell if it was hidden. -/
def applyMove (s : QState) (m : GameMove) : QState × Option GameErr :=
  match validateMove s m with
  | .error e => (s, some e)
  | .ok piece =>
    match (s.games m.move.board).moves.find?
        (fun mv => mv.row == m.move.row && mv.col == m.move.col) with
    | none =>
      let s1 : QState :=
        { s with
          privateBoards := setPriv s.privateBoards piece m.move.board m.move.row m.move.col,
          games := updF s.games m.move.board
            (appendMoveToSubGame (s.games m.move.board)
              { gamePiece := piece, row := m.move.row, col := m.move.col } s.x s.o) }
      finishMove s1 m piece
    | some existingOccupant =>
      if existingOccupant.gamePiece = piece then (s, some .positionNotEmpty)
      else
        let s1 : QState :=
          if s.publiclyVisible m.move.board m.move.row m.move.col then s
          else
            { s with
              publiclyVisible := setVis s.publiclyVisible m.move.board m.move.row m.move.col }
        finishMove s1 m piece

/-! ### Client-side projection (`QuantumTicTacToeAreaController._updateFrom`) -/

/-- The `firstPiece` entry of `cellInfo` in `_updateFrom` (lines 176-187):
the piece of the first move of the model's move list at the given cell. -/
def firstPieceAt (moves : List QMove) (b : BoardID) (r c : Int) : Option Piece :=
  (moves.find? fun mv => mv.board == b && mv.row == r && mv.col == c).map QMove.gamePiece

/-- The `hasOurMove` entry of `cellInfo`: whether the given piece has a move
at the given cell in the model's move list. -/
def hasMoveBy (moves : List QMove) (p : Piece) (b : BoardID) (r c : Int) : Bool :=
  moves.any fun mv => mv.board == b && mv.row == r && mv.col == c && mv.gamePiece == p

/-- The cell value computed by `_updateFrom` (lines 189-204): a visible cell
with a recorded move shows the first piece that played there; otherwise the
viewer's own piece is shown when the viewer has played the cell; otherwise
the cell renders empty.  `ourPiece` is the viewer's piece, `none` for a
non-player. -/
def projectedCell (moves : List QMove) (vis : BoardID → Int → Int → Bool)
    (ourPiece : Option Piece) (b : BoardID) (r c : Int) : Option Piece :=
  let first := firstPieceAt moves b r c
  let hasOur :=
    match ourPiece with
    | some p => hasMoveBy moves p b r c
    | none => false
  if vis b r c && first.isSome then first
  else if hasOur then ourPiece
  else none

/-! ### Spec-side definitions and invariants -/

/-- Refinement spec for claim C1, written from the claim's words: the first
failing check among, in order, game not in progress; mover in neither slot;
accepted-move-count parity not matching the mover's piece (even means X's
turn, odd means O's); row or col outside 0..2; target board already has an
assigned winner; the mover's own piece already occupies the cell.  `none`
means the move must be accepted. -/
def specFirstError (s : QState) (m : GameMove) : Option GameErr :=
  if s.status ≠ GStatus.inProgress then some .gameNotInProgress
  else if ¬(s.x = some m.playerID) ∧ ¬(s.o = some m.playerID) then some .playerNotInGame
  else
    let piece : Piece := if s.x = some m.playerID then .X else .O
    if (s.moves.length % 2 = 0 ∧ piece = .O) ∨ (s.moves.length % 2 = 1 ∧ piece = .X) then
      some .notYourTurn
    else if m.move.row < 0 ∨ m.move.row > 2 ∨ m.move.col < 0 ∨ m.move.col > 2 then
      some .invalidPosition
    else if (s.boardWinners m.move.board).isSome then some .invalidPosition
    else if s.privateBoards piece m.move.board m.move.row m.move.col = true then
      some .positionNotEmpty
    else none

/-- The piece a mover's id resolves to once validation has passed (`x` is
checked first, as in `_validateMove`). -/
def moverPiece (s : QState) (m : GameMove) : Piece :=
  if s.x = some m.playerID then .X else .O

/-- Piece `p` has an accepted move at cell `(b, r, c)` in the authoritative
move log. -/
def authAt (s : QState) (p : Piece) (b : BoardID) (r c : Int) : Prop :=
  ∃ am ∈ s.moves, am.board = b ∧ am.row = r ∧ am.col = c ∧ am.gamePiece = p

instance instDecAuthAt (s : QState) (p : Piece) (b : BoardID) (r c : Int) :
    Decidable (authAt s p b r c) := by
  unfold authAt
  exact inferInstance

/-- A collision has occurred at the cell: both pieces have played it. -/
def bothPlayed (s : QState) (b : BoardID) (r c : Int) : Prop :=
  authAt s .X b r c ∧ authAt s .O b r c

instance instDecBothPlayed (s : QState) (b : BoardID) (r c : Int) :
    Decidable (bothPlayed s b r c) := by
  unfold bothPlayed
  exact inferInstance

/-- Number of boards whose recorded winner is piece `p`. -/
def countWon (s : QState) (p : Piece) : Nat :=
  (if s.boardWinners .A = some p then 1 else 0) +
  (if s.boardWinners .B = some p then 1 else 0) +
  (if s.boardWinners .C = some p then 1 else 0)

/-- The cell keys of a sub-board's recorded moves. -/
def subMoveKeys (sub : SubState) : List (Int × Int) :=
  sub.moves.map fun mv => (mv.row, mv.col)

/-- Sub-board moves are in bounds. -/
def SubBoundsInv (s : QState) : Prop :=
  ∀ b : BoardID, ∀ mv ∈ (s.games b).moves, mv.row ∈ range3 ∧ mv.col ∈ range3

/-- Sub-board moves occupy pairwise distinct cells. -/
def SubNodupInv (s : QState) : Prop :=
  ∀ b : BoardID, (subMoveKeys (s.games b)).Nodup

/-- The hidden occupancy grids agree with the sub-board move lists. -/
def PrivInv (s : QState) : Prop :=
  ∀ p : Piece, ∀ b : BoardID, ∀ r ∈ range3, ∀ c ∈ range3,
    (s.privateBoards p b r c = true ↔
      ∃ mv ∈ (s.games b).moves, mv.gamePiece = p ∧ mv.row = r ∧ mv.col = c)

/-- Every authoritative move has an occupant recorded on its sub-board. -/
def AuthOccInv (s : QState) : Prop :=
  ∀ am ∈ s.moves, ∃ mv ∈ (s.games am.board).moves, mv.row = am.row ∧ mv.col = am.col

/-- Every sub-board move appears in the authoritative log. -/
def SubAuthInv (s : QState) : Prop :=
  ∀ b : BoardID, ∀ mv ∈ (s.games b).moves, authAt s mv.gamePiece b mv.row mv.col

/-- Public visibility marks exactly the collided cells. -/
def VisInv (s : QState) : Prop :=
  ∀ b : BoardID, ∀ r ∈ range3, ∀ c ∈ range3,
    (s.publiclyVisible b r c = true ↔ bothPlayed s b r c)

/-- The private score mirrors count the won boards and the published scores
agree with them. -/
def ScoreInv (s : QState) : Prop :=
  s.xScoreP = countWon s .X ∧ s.oScoreP = countWon s .O ∧
  s.xScore = s.xScoreP ∧ s.oScore = s.oScoreP

/-- `_moveCount` is the length of the authoritative log. -/
def MoveCountInv (s : QState) : Prop :=
  s.moveCount = s.moves.length

/-- No winnerless board has a completed line (win detection never leaves one
behind). -/
def NoLines (s : QState) : Prop :=
  ∀ b : BoardID, s.boardWinners b = none →
    hasThreeInARow (s.privateBoards .X b) = false ∧
    hasThreeInARow (s.privateBoards .O b) = false

/-- Coherence invariant of reachable states. -/
def Coh (s : QState) : Prop :=
  SubBoundsInv s ∧ SubNodupInv s ∧ PrivInv s ∧ AuthOccInv s ∧ SubAuthInv s ∧
  VisInv s ∧ ScoreInv s ∧ MoveCountInv s ∧ NoLines s

instance instDecSubBoundsInv (s : QState) : Decidable (SubBoundsInv s) := by
  unfold SubBoundsInv
  exact inferInstance

instance instDecSubNodupInv (s : QState) : Decidable (SubNodupInv s) := by
  unfold SubNodupInv
  exact inferInstance

instance instDecPrivInv (s : QState) : Decidable (PrivInv s) := by
  unfold PrivInv
  exact inferInstance

instance instDecAuthOccInv (s : QState) : Decidable (AuthOccInv s) := by
  unfold AuthOccInv
  exact inferInstance

instance instDecSubAuthInv (s : QState) : Decidable (SubAuthInv s) := by
  unfold SubAuthInv
  exact inferInstance

instance instDecVisInv (s : QState) : Decidable (VisInv s) := by
  unfold VisInv
  exact inferInstance

instance instDecScoreInv (s : QState) : Decidable (ScoreInv s) := by
  unfold ScoreInv
  exact inferInstance

instance instDecMoveCountInv (s : QState) : Decidable (MoveCountInv s) := by
  unfold MoveCountInv
  exact inferInstance

instance instDecNoLines (s : QState) : Decidable (NoLines s) := by
  unfold NoLines
  exact inferInstance

instance instDecCoh (s : QState) : Decidable (Coh s) := by
  unfold Coh
  exact inferInstance

/-- The states one game instance can be in: the constructor state followed by
any sequence of join, leave and applyMove calls.  A rejected call leaves the
state unchanged, so the post-call state is taken unconditionally. -/
inductive Reachable : QState → Prop
  | init (gid : String) : Reachable (initState gid)
  | join {s : QState} (pid : String) : Reachable s → Reachable (joinG s pid).1
  | leave {s : QState} (pid : String) : Reachable s → Reachable (leaveG s pid).1
  | move {s : QState} (m : GameMove) : Reachable s → Reachable (applyMove s m).1

/-- One operation of the engine's interface, from state `s` to state `s3`. -/
def Step (s s3 : QState) : Prop :=
  (∃ pid, s3 = (joinG s pid).1) ∨ (∃ pid, s3 = (leaveG s pid).1) ∨
  (∃ m, s3 = (applyMove s m).1)

/-! ### Derived forms of the accepted-move paths (used to state lemmas) -/

/-- The state after the non-collision mutations of `applyMove` (lines
236-238): hidden occupancy set, move appended to the sub-board. -/
def occupyState (s : QState) (m : GameMove) (p : Piece) : QState :=
  { s with
    privateBoards := setPriv s.privateBoards p m.move.board m.move.row m.move.col,
    games := updF s.games m.move.board
      (appendMoveToSubGame (s.games m.move.board)
        { gamePiece := p, row := m.move.row, col := m.move.col } s.x s.o) }

/-- The state after a collision reveal (lines 243-246). -/
def revealState (s : QState) (m : GameMove) : QState :=
  { s with
    publiclyVisible := setVis s.publiclyVisible m.move.board m.move.row m.move.col }

/-- The authoritative-log append of lines 249-261 applied to a state. -/
def recordMove (s1 : QState) (m : GameMove) (p : Piece) : QState :=
  let nm : QMove := { board := m.move.board, row := m.move.row, col := m.move.col, gamePiece := p }
  { s1 with moves := s1.moves ++ [nm], moveCount := (s1.moves ++ [nm]).length }

/-- The record mutation of one `_checkForWins` award on board `bd` for piece
`p` (lines 277-289), before the score publication. -/
def award0 (st : QState) (bd : BoardID) (p : Piece) : QState :=
  match p with
  | .X =>
    { st with
      boardWinners := updF st.boardWinners bd (some .X),
      xScoreP := st.xScoreP + 1,
      games := updF st.games bd (markWon (st.games bd) st.x) }
  | .O =>
    { st with
      boardWinners := updF st.boardWinners bd (some .O),
      oScoreP := st.oScoreP + 1,
      games := updF st.games bd (markWon (st.games bd) st.o) }

/-- One `_checkForWins` award including the score publication of lines
291-297. -/
def award (st : QState) (bd : BoardID) (p : Piece) : QState :=
  { award0 st bd p with
    xScore := (award0 st bd p).xScoreP,
    oScore := (award0 st bd p).oScoreP }

/-- The game-ending record of `_checkForGameEnding` lines 317-341. -/
def endState (st : QState) : QState :=
  let winner : Option String :=
    if st.xScoreP > st.oScoreP then st.x
    else if st.oScoreP > st.xScoreP then st.o
    else none
  let st1 : QState := { st with status := .over, winner := winner }
  let scores := buildScores st.x st.o st.xScoreP st.oScoreP
  if scores.isEmpty then st1
  else { st1 with result := some { gameID := st.id, scores := scores } }

/-! ### Concrete states used by witnesses and counterexamples -/

/-- Convenience constructor for a `GameMove` command. -/
def mkGameMove (pid : String) (b : BoardID) (r c : Int) (p : Piece) : GameMove :=
  { playerID := pid, gameID := "game1",
    move := { board := b, row := r, col := c, gamePiece := p } }

/-- Fresh game. -/
def st0 : QState := initState "game1"

/-- After the first join. -/
def st1 : QState := (joinG st0 "alice").1

/-- After both joins: `IN_PROGRESS`, alice is X, bob is O. -/
def st2 : QState := (joinG st1 "bob").1

/-- X plays A(0,0). -/
def cu1 : QState := (applyMove st2 (mkGameMove "alice" .A 0 0 .X)).1

/-- O plays A(0,0): the collision. -/
def cu2 : QState := (applyMove cu1 (mkGameMove "bob" .A 0 0 .O)).1

/-- X plays B(1,1). -/
def cu3 : QState := (applyMove cu2 (mkGameMove "alice" .B 1 1 .X)).1

/-- The duplicate collision replay: O plays A(0,0) a second time. -/
def cu4 : QState × Option GameErr := applyMove cu3 (mkGameMove "bob" .A 0 0 .O)

/-- Five moves giving X the top row of board A: X A(0,0), O B(0,0),
X A(0,1), O B(0,1), X A(0,2). -/
def cw5 : QState :=
  (applyMove (applyMove (applyMove (applyMove (applyMove st2
    (mkGameMove "alice" .A 0 0 .X)).1
    (mkGameMove "bob" .B 0 0 .O)).1
    (mkGameMove "alice" .A 0 1 .X)).1
    (mkGameMove "bob" .B 0 1 .O)).1
    (mkGameMove "alice" .A 0 2 .X)).1

/-- The first four moves of the `cw` scenario: X A(0,0), O B(0,0),
X A(0,1), O B(0,1) — the state from which X's A(0,2) completes the top row
of board A. -/
def cw4 : QState :=
  (applyMove (applyMove (applyMove (applyMove st2
    (mkGameMove "alice" .A 0 0 .X)).1
    (mkGameMove "bob" .B 0 0 .O)).1
    (mkGameMove "alice" .A 0 1 .X)).1
    (mkGameMove "bob" .B 0 1 .O)).1

/-- Bob leaves `cw5` mid-game: `OVER`, alice's slot kept, score kept. -/
def cw6 : QState := (leaveG cw5 "bob").1

/-- Alice then leaves too: the instance resets. -/
def cw7 : QState := (leaveG cw6 "alice").1

/-- Bob leaves the fresh `IN_PROGRESS` game: `OVER` with the O slot empty. -/
def cv3 : QState := (leaveG st2 "bob").1

/-- A third player joins the `OVER` game: back to `IN_PROGRESS`. -/
def cv4 : QState := (joinG cv3 "carol").1

/-- A game that is `OVER` with both player slots occupied. -/
def sOverBoth : QState := { st2 with status := GStatus.over }

/-- The published score of a piece. -/
def scoreOf (st : QState) (q : Piece) : Nat :=
  match q with
  | .X => st.xScore
  | .O => st.oScore

/-- The 8 lines of a 3×3 board as cell lists, written from claim C8's words:
3 rows, 3 columns, 2 diagonals. -/
def lines8 : List (List (Int × Int)) :=
  [[(0, 0), (0, 1), (0, 2)], [(1, 0), (1, 1), (1, 2)], [(2, 0), (2, 1), (2, 2)],
   [(0, 0), (1, 0), (2, 0)], [(0, 1), (1, 1), (2, 1)], [(0, 2), (1, 2), (2, 2)],
   [(0, 0), (1, 1), (2, 2)], [(0, 2), (1, 1), (2, 0)]]

/-- The 9 cells of a 3×3 board. -/
def cell9 : List (Int × Int) :=
  [(0, 0), (0, 1), (0, 2), (1, 0), (1, 1), (1, 2), (2, 0), (2, 1), (2, 2)]

/-! ### Reachability of the concrete states -/

theorem reachable_st2 : Reachable st2 :=
  Reachable.join "bob" (Reachable.join "alice" (Reachable.init "game1"))

theorem reachable_cu3 : Reachable cu3 :=
  Reachable.move _ (Reachable.move _ (Reachable.move _ reachable_st2))

theorem reachable_cw4 : Reachable cw4 :=
  Reachable.move _ (Reachable.move _ (Reachable.move _ (Reachable.move _ reachable_st2)))

theorem reachable_cw5 : Reachable cw5 :=
  Reachable.move _ (Reachable.move _ (Reachable.move _ (Reachable.move _
    (Reachable.move _ reachable_st2))))

theorem reachable_cw6 : Reachable cw6 :=
  Reachable.leave _ reachable_cw5

theorem reachable_cv3 : Reachable cv3 :=
  Reachable.leave _ reachable_st2

/-! ### Structural lemmas about `applyMove` -/

/-- A throwing `applyMove` returns the entry state: both throw sites
(validation, and the same-piece occupant re-check) precede every mutation. -/
theorem applyMove_err_fst (s : QState) (m : GameMove) (e : GameErr)
    (h : (applyMove s m).2 = some e) : (applyMove s m).1 = s := by
  unfold applyMove at h ⊢
  split at h
  · rfl
  · split at h
    · simp [finishMove] at h
    · split at h
      · rename_i hocc
        rw [if_pos hocc]
      · simp [finishMove] at h

/-- C7: whenever `applyMove` fails with a rejection error, the entire
observable game state (move log, hidden occupancy, scores, visibility,
status, player slots and the three sub-board engines, i.e. the whole state
record) is exactly as it was before the call: validation completes fully
before any mutation begins, so every rejected move is a no-op. -/
theorem c7_rejected_move_is_noop (s : QState) (m : GameMove) (e : GameErr)
    (h : (applyMove s m).2 = some e) : (applyMove s m).1 = s :=
  applyMove_err_fst s m e h

/-- Witness for C7: a move sent before the game started is rejected with
`GameNotInProgress` and leaves the state exactly as it was. -/
theorem c7_witness :
    (applyMove st0 (mkGameMove "alice" .A 0 0 .X)).2 = some GameErr.gameNotInProgress ∧
    (applyMove st0 (mkGameMove "alice" .A 0 0 .X)).1 = st0 :=
  ⟨by decide, c7_rejected_move_is_noop st0 (mkGameMove "alice" .A 0 0 .X)
    GameErr.gameNotInProgress (by decide)⟩

/-! ### The client projection rule (claim C9) -/

/-- If the viewer has a move at a cell, some move is recorded there, so the
cell has a first piece. -/
theorem hasMoveBy_first_isSome {moves : List QMove} {p : Piece} {b : BoardID} {r c : Int}
    (h : hasMoveBy moves p b r c = true) : (firstPieceAt moves b r c).isSome = true := by
  unfold hasMoveBy at h
  unfold firstPieceAt
  rw [List.any_eq_true] at h
  obtain ⟨mv, hmem, hpred⟩ := h
  simp only [Bool.and_eq_true, beq_iff_eq] at hpred
  obtain ⟨⟨⟨hb, hr⟩, hc⟩, hp⟩ := hpred
  rw [Option.isSome_map']
  rw [List.find?_isSome]
  exact ⟨mv, hmem, by simp [hb, hr, hc]⟩

/-- C9: the projected board shows a mark at a cell iff either the cell is
publicly visible and the mark is the piece of the first move played there,
or the cell is not publicly visible and the viewer's own piece has played
it; an opponent's un-revealed marks are never shown. -/
theorem c9_projected_cell_rule (moves : List QMove) (vis : BoardID → Int → Int → Bool)
    (ourPiece : Option Piece) (b : BoardID) (r c : Int) (pm : Piece) :
    projectedCell moves vis ourPiece b r c = some pm ↔
      (vis b r c = true ∧ firstPieceAt moves b r c = some pm) ∨
      (vis b r c = false ∧ ourPiece = some pm ∧ hasMoveBy moves pm b r c = true) := by
  unfold projectedCell
  cases hv : vis b r c with
  | false =>
    simp only [hv, Bool.false_and, Bool.false_eq_true, if_false]
    cases hop : ourPiece with
    | none => simp
    | some q =>
      by_cases hq : q = pm
      · subst hq
        cases hmb : hasMoveBy moves q b r c <;> simp [hmb]
      · cases hmb : hasMoveBy moves q b r c <;> simp [hmb, hq]
  | true =>
    cases hf : firstPieceAt moves b r c with
    | some q => simp [hv, hf]
    | none =>
      cases hop : ourPiece with
      | none => simp [hv, hf]
      | some q =>
        cases hmb : hasMoveBy moves q b r c with
        | false => simp [hv, hf, hmb]
        | true => exact absurd (hasMoveBy_first_isSome hmb) (by simp [hf])

/-! ### Concrete theorems exhibiting the C4/C5/C6 divergences -/

/-- C4 counterexample: bob's mid-game leave puts the instance in `OVER` with
the O slot empty; carol's join is then accepted and takes the very same
instance back to `IN_PROGRESS`, so `OVER` is not permanent and the
OVER-to-IN_PROGRESS transition does happen. -/
theorem c4_counterexample :
    Reachable cv3 ∧ cv3.status = GStatus.over ∧
    cv4 = (joinG cv3 "carol").1 ∧ (joinG cv3 "carol").2 = none ∧
    cv4.status = GStatus.inProgress :=
  ⟨reachable_cv3, by decide, rfl, by decide, by decide⟩

/-- C5, evaluated at the failing input: after X A(0,0), O A(0,0) (collision)
and X B(1,1), O's second play of A(0,0) is accepted (the repo's own test
expects `BOARD_POSITION_NOT_EMPTY` here), and the authoritative log then
holds two accepted (O, A, 0, 0) entries. -/
theorem c5_duplicate_collision_replay_accepted :
    Reachable cu3 ∧ cu4.2 = none ∧
    (cu4.1.moves.filter fun mv =>
      mv.gamePiece == Piece.O && mv.board == BoardID.A && mv.row == 0 && mv.col == 0).length
      = 2 :=
  ⟨reachable_cu3, by decide, by decide⟩

/-- C6 counterexample: X's score is 1 when bob leaves (the instance stays at
score 1 in `OVER`), and alice's subsequent leave resets the same instance,
dropping `xScore` from 1 back to 0 within its lifetime. -/
theorem c6_counterexample :
    Reachable cw5 ∧ cw5.xScore = 1 ∧
    cw6 = (leaveG cw5 "bob").1 ∧ cw6.xScore = 1 ∧
    cw7 = (leaveG cw6 "alice").1 ∧ cw7.xScore = 0 ∧ cw7.status = GStatus.waitingToStart :=
  ⟨reachable_cw5, by decide, rfl, by decide, rfl, by decide, by decide⟩

/-- C4 (amended): `OVER` is stable exactly while both player slots remain
occupied: on such a state every operation leaves the status `OVER`.  (With a
slot empty, the counterexample shows a join can return the instance to
`IN_PROGRESS`, and the remaining player's leave resets it to
`WAITING_TO_START`.) -/
theorem c4_amended_over_with_both_slots_is_stable (s : QState) (m : GameMove) (pid : String)
    (hst : s.status = GStatus.over) (hx : s.x.isSome = true) (ho : s.o.isSome = true) :
    (joinG s pid).1.status = GStatus.over ∧
    (leaveG s pid).1.status = GStatus.over ∧
    (applyMove s m).1.status = GStatus.over := by
  obtain ⟨xa, hxa⟩ := Option.isSome_iff_exists.mp hx
  obtain ⟨oa, hoa⟩ := Option.isSome_iff_exists.mp ho
  refine ⟨?_, ?_, ?_⟩
  · unfold joinG
    split_ifs with h1 h2 h3
    · exact hst
    · simp [hxa] at h2
    · simp [hoa] at h3
    · exact hst
  · by_cases h1 : ¬(s.x = some pid) ∧ ¬(s.o = some pid)
    · simp [leaveG, h1, hst]
    · simp [leaveG, h1, hx, ho]
  · have hv : validateMove s m = .error .gameNotInProgress := by
      unfold validateMove
      rw [if_pos (by simp [hst])]
    unfold applyMove
    rw [hv]
    exact hst

/-- Witness for the amended C4 at a concrete `OVER` state with both slots
occupied. -/
theorem c4_amended_witness :
    sOverBoth.status = GStatus.over ∧ sOverBoth.x.isSome = true ∧ sOverBoth.o.isSome = true ∧
    ((joinG sOverBoth "dave").1.status = GStatus.over ∧
     (leaveG sOverBoth "dave").1.status = GStatus.over ∧
     (applyMove sOverBoth (mkGameMove "alice" .A 0 0 .X)).1.status = GStatus.over) :=
  ⟨by decide, by decide, by decide,
    c4_amended_over_with_both_slots_is_stable sOverBoth (mkGameMove "alice" .A 0 0 .X)
      "dave" (by decide) (by decide) (by decide)⟩

/-! ### The validation chain (claim C1) -/

/-- Bounded membership in `range3` is the interval condition. -/
theorem mem_range3_iff {r : Int} : r ∈ range3 ↔ 0 ≤ r ∧ r ≤ 2 := by
  simp only [range3, List.mem_cons, List.mem_singleton, List.not_mem_nil, or_false]
  omega

/-- `_validateMove` computes exactly the claim's first-failing-check
function, given that `_moveCount` agrees with the accepted-move count. -/
theorem validateMove_eq_spec (s : QState) (m : GameMove)
    (hmc : s.moveCount = s.moves.length) :
    validateMove s m =
      (match specFirstError s m with
        | some e => Except.error e
        | none => Except.ok (moverPiece s m)) := by
  unfold validateMove specFirstError moverPiece pieceFor
  rw [← hmc]
  by_cases h1 : s.status ≠ GStatus.inProgress
  · rw [if_pos h1, if_pos h1]
  rw [if_neg h1, if_neg h1]
  by_cases hx : s.x = some m.playerID
  · rw [if_pos hx, if_neg (by simp [hx]), if_pos hx]
    dsimp only
    by_cases hpar : (Piece.X = Piece.X ∧ s.moveCount % 2 = 1) ∨
        (Piece.X = Piece.O ∧ s.moveCount % 2 = 0)
    · rw [if_pos hpar,
        if_pos (show (s.moveCount % 2 = 0 ∧ Piece.X = Piece.O) ∨
            (s.moveCount % 2 = 1 ∧ Piece.X = Piece.X) by
          rcases hpar with ⟨hp, hm⟩ | ⟨hp, hm⟩
          · exact Or.inr ⟨hm, hp⟩
          · exact Or.inl ⟨hm, hp⟩)]
    · rw [if_neg hpar,
        if_neg (show ¬((s.moveCount % 2 = 0 ∧ Piece.X = Piece.O) ∨
            (s.moveCount % 2 = 1 ∧ Piece.X = Piece.X)) by
          rintro (⟨hm, hp⟩ | ⟨hm, hp⟩)
          · exact hpar (Or.inr ⟨hp, hm⟩)
          · exact hpar (Or.inl ⟨hp, hm⟩))]
      by_cases hb : m.move.row < 0 ∨ m.move.row > 2 ∨ m.move.col < 0 ∨ m.move.col > 2
      · rw [if_pos hb, if_pos hb]
      rw [if_neg hb, if_neg hb]
      by_cases hw : (s.boardWinners m.move.board).isSome
      · rw [if_pos hw, if_pos hw]
      rw [if_neg hw, if_neg hw]
      by_cases hp : s.privateBoards Piece.X m.move.board m.move.row m.move.col = true
      · rw [if_pos hp, if_pos hp]
      · rw [if_neg hp, if_neg hp]
  · rw [if_neg hx, if_neg hx]
    by_cases ho : s.o = some m.playerID
    · rw [if_pos ho, if_neg (by simp [hx, ho])]
      dsimp only
      by_cases hpar : (Piece.O = Piece.X ∧ s.moveCount % 2 = 1) ∨
          (Piece.O = Piece.O ∧ s.moveCount % 2 = 0)
      · rw [if_pos hpar,
          if_pos (show (s.moveCount % 2 = 0 ∧ Piece.O = Piece.O) ∨
              (s.moveCount % 2 = 1 ∧ Piece.O = Piece.X) by
            rcases hpar with ⟨hp, hm⟩ | ⟨hp, hm⟩
            · exact Or.inr ⟨hm, hp⟩
            · exact Or.inl ⟨hm, hp⟩)]
      · rw [if_neg hpar,
          if_neg (show ¬((s.moveCount % 2 = 0 ∧ Piece.O = Piece.O) ∨
              (s.moveCount % 2 = 1 ∧ Piece.O = Piece.X)) by
            rintro (⟨hm, hp⟩ | ⟨hm, hp⟩)
            · exact hpar (Or.inr ⟨hp, hm⟩)
            · exact hpar (Or.inl ⟨hp, hm⟩))]
        by_cases hb : m.move.row < 0 ∨ m.move.row > 2 ∨ m.move.col < 0 ∨ m.move.col > 2
        · rw [if_pos hb, if_pos hb]
        rw [if_neg hb, if_neg hb]
        by_cases hw : (s.boardWinners m.move.board).isSome
        · rw [if_pos hw, if_pos hw]
        rw [if_neg hw, if_neg hw]
        by_cases hp : s.privateBoards Piece.O m.move.board m.move.row m.move.col = true
        · rw [if_pos hp, if_pos hp]
        · rw [if_neg hp, if_neg hp]
    · rw [if_neg ho, if_pos ⟨hx, ho⟩]

/-- Unpacking `specFirstError s m = none`: all six checks pass. -/
theorem specFirstError_none (s : QState) (m : GameMove) (h : specFirstError s m = none) :
    s.status = GStatus.inProgress ∧ (s.x = some m.playerID ∨ s.o = some m.playerID) ∧
    ¬((s.moves.length % 2 = 0 ∧ moverPiece s m = .O) ∨
      (s.moves.length % 2 = 1 ∧ moverPiece s m = .X)) ∧
    (0 ≤ m.move.row ∧ m.move.row ≤ 2) ∧ (0 ≤ m.move.col ∧ m.move.col ≤ 2) ∧
    s.boardWinners m.move.board = none ∧
    s.privateBoards (moverPiece s m) m.move.board m.move.row m.move.col = false := by
  unfold specFirstError at h
  unfold moverPiece
  by_cases h1 : s.status ≠ GStatus.inProgress
  · rw [if_pos h1] at h; cases h
  rw [if_neg h1] at h
  push_neg at h1
  by_cases h2 : ¬(s.x = some m.playerID) ∧ ¬(s.o = some m.playerID)
  · rw [if_pos h2] at h; cases h
  rw [if_neg h2] at h
  dsimp only at h
  by_cases h3 : (s.moves.length % 2 = 0 ∧
        (if s.x = some m.playerID then Piece.X else Piece.O) = Piece.O) ∨
      (s.moves.length % 2 = 1 ∧
        (if s.x = some m.playerID then Piece.X else Piece.O) = Piece.X)
  · rw [if_pos h3] at h; cases h
  rw [if_neg h3] at h
  by_cases h4 : m.move.row < 0 ∨ m.move.row > 2 ∨ m.move.col < 0 ∨ m.move.col > 2
  · rw [if_pos h4] at h; cases h
  rw [if_neg h4] at h
  by_cases h5 : (s.boardWinners m.move.board).isSome
  · rw [if_pos h5] at h; cases h
  rw [if_neg h5] at h
  by_cases h6 : s.privateBoards (if s.x = some m.playerID then Piece.X else Piece.O)
      m.move.board m.move.row m.move.col = true
  · rw [if_pos h6] at h; cases h
  push_neg at h4
  refine ⟨h1, ?_, h3, by omega, by omega, ?_, ?_⟩
  · by_cases hx : s.x = some m.playerID
    · exact Or.inl hx
    · rcases not_and_or.mp h2 with hh | hh
      · exact absurd (not_not.mp hh) hx
      · exact Or.inr (not_not.mp hh)
  · exact Option.not_isSome_iff_eq_none.mp h5
  · cases hb : s.privateBoards (if s.x = some m.playerID then Piece.X else Piece.O)
        m.move.board m.move.row m.move.col
    · rfl
    · exact absurd hb h6

/-- From an accepted validation: the returned piece is the mover's piece and
every check of the claim's chain passes. -/
theorem validateMove_ok_facts (s : QState) (m : GameMove) (p : Piece)
    (hmc : s.moveCount = s.moves.length) (hv : validateMove s m = .ok p) :
    p = moverPiece s m ∧ specFirstError s m = none := by
  rw [validateMove_eq_spec s m hmc] at hv
  cases hspec : specFirstError s m with
  | some e => rw [hspec] at hv; cases hv
  | none =>
    rw [hspec] at hv
    cases hv
    exact ⟨rfl, rfl⟩

/-! ### Pointwise evaluation of the update helpers -/

theorem updF_self {α β : Type} [DecidableEq α] (f : α → β) (a : α) (v : β) :
    updF f a v a = v := by
  simp [updF]

theorem updF_other {α β : Type} [DecidableEq α] (f : α → β) {a a' : α} (v : β)
    (h : a' ≠ a) : updF f a v a' = f a' := by
  simp [updF, h]

theorem setPriv_self (pb : Piece → BoardID → Int → Int → Bool) (p : Piece)
    (b : BoardID) (r c : Int) : setPriv pb p b r c p b r c = true := by
  simp [setPriv]

theorem setPriv_other (pb : Piece → BoardID → Int → Int → Bool) {p p' : Piece}
    {b b' : BoardID} {r c r' c' : Int}
    (h : ¬(p' = p ∧ b' = b ∧ r' = r ∧ c' = c)) :
    setPriv pb p b r c p' b' r' c' = pb p' b' r' c' := by
  simp only [setPriv, if_neg h]

theorem setVis_self (vis : BoardID → Int → Int → Bool) (b : BoardID) (r c : Int) :
    setVis vis b r c b r c = true := by
  simp [setVis]

theorem setVis_other (vis : BoardID → Int → Int → Bool) {b b' : BoardID}
    {r c r' c' : Int} (h : ¬(b' = b ∧ r' = r ∧ c' = c)) :
    setVis vis b r c b' r' c' = vis b' r' c' := by
  simp only [setVis, if_neg h]

theorem hasThreeInARow_congr {g g' : Int → Int → Bool}
    (h : ∀ r c : Int, g r c = g' r c) : hasThreeInARow g = hasThreeInARow g' := by
  unfold hasThreeInARow
  simp only [h]

/-! ### Characterizing `_checkForWins` -/

/-- A board at which nothing happens: either it already has a winner, or
neither grid has a completed line. -/
theorem checkBoard_noop (st : QState) (b : BoardID)
    (h : st.boardWinners b = none →
      hasThreeInARow (st.privateBoards .X b) = false ∧
      hasThreeInARow (st.privateBoards .O b) = false) :
    checkBoard st b = (st, false) := by
  unfold checkBoard
  cases hw : st.boardWinners b with
  | some w => rfl
  | none =>
    obtain ⟨hx, ho⟩ := h hw
    rw [hx, ho]
    simp

/-- A board the X grid has just completed. -/
theorem checkBoard_awardX (st : QState) (b : BoardID)
    (hw : st.boardWinners b = none)
    (hx : hasThreeInARow (st.privateBoards .X b) = true) :
    checkBoard st b = (award0 st b .X, true) := by
  unfold checkBoard award0
  rw [hw, hx]
  simp

/-- A board the O grid has just completed (the X grid has not). -/
theorem checkBoard_awardO (st : QState) (b : BoardID)
    (hw : st.boardWinners b = none)
    (hx : hasThreeInARow (st.privateBoards .X b) = false)
    (ho : hasThreeInARow (st.privateBoards .O b) = true) :
    checkBoard st b = (award0 st b .O, true) := by
  unfold checkBoard award0
  rw [hw, hx, ho]
  simp

/-! ### Field lemmas about `award0` -/

theorem award0_privateBoards (st : QState) (bd : BoardID) (p : Piece) :
    (award0 st bd p).privateBoards = st.privateBoards := by
  cases p <;> rfl

theorem award0_boardWinners (st : QState) (bd : BoardID) (p : Piece) :
    (award0 st bd p).boardWinners = updF st.boardWinners bd (some p) := by
  cases p <;> rfl

theorem award0_moves (st : QState) (bd : BoardID) (p : Piece) :
    (award0 st bd p).moves = st.moves := by
  cases p <;> rfl

theorem award0_publiclyVisible (st : QState) (bd : BoardID) (p : Piece) :
    (award0 st bd p).publiclyVisible = st.publiclyVisible := by
  cases p <;> rfl

theorem award0_status (st : QState) (bd : BoardID) (p : Piece) :
    (award0 st bd p).status = st.status := by
  cases p <;> rfl

theorem award0_x (st : QState) (bd : BoardID) (p : Piece) :
    (award0 st bd p).x = st.x := by
  cases p <;> rfl

theorem award0_o (st : QState) (bd : BoardID) (p : Piece) :
    (award0 st bd p).o = st.o := by
  cases p <;> rfl

theorem award0_moveCount (st : QState) (bd : BoardID) (p : Piece) :
    (award0 st bd p).moveCount = st.moveCount := by
  cases p <;> rfl

theorem award0_xScoreP (st : QState) (bd : BoardID) (p : Piece) :
    (award0 st bd p).xScoreP = st.xScoreP + (if p = .X then 1 else 0) := by
  cases p <;> simp [award0]

theorem award0_oScoreP (st : QState) (bd : BoardID) (p : Piece) :
    (award0 st bd p).oScoreP = st.oScoreP + (if p = .O then 1 else 0) := by
  cases p <;> simp [award0]

theorem award0_games_other (st : QState) (bd : BoardID) (p : Piece) {b : BoardID}
    (h : b ≠ bd) : (award0 st bd p).games b = st.games b := by
  cases p <;> simp [award0, updF_other _ _ h]

theorem award0_games_self (st : QState) (bd : BoardID) (p : Piece) :
    (award0 st bd p).games bd =
      markWon (st.games bd) (match p with | .X => st.x | .O => st.o) := by
  cases p <;> simp [award0, updF_self]

/-! ### The two outcomes of `_checkForWins` -/

/-- No board is newly completed: `_checkForWins` is the identity. -/
theorem checkForWins_noop (st : QState)
    (h : ∀ b, st.boardWinners b = none →
      hasThreeInARow (st.privateBoards .X b) = false ∧
      hasThreeInARow (st.privateBoards .O b) = false) :
    checkForWins st = st := by
  have hA : checkBoard st .A = (st, false) := checkBoard_noop st .A (h .A)
  have hB : checkBoard (checkBoard st .A).1 .B = ((checkBoard st .A).1, false) := by
    rw [hA]
    exact checkBoard_noop st .B (h .B)
  have hC : checkBoard (checkBoard (checkBoard st .A).1 .B).1 .C =
      ((checkBoard (checkBoard st .A).1 .B).1, false) := by
    rw [hB, hA]
    exact checkBoard_noop st .C (h .C)
  unfold checkForWins
  dsimp only
  rw [hC, hB, hA]
  rfl

/-- Exactly board `bd` is newly completed, by piece `p`: `_checkForWins`
performs the single award. -/
theorem checkForWins_award (st : QState) (bd : BoardID) (p : Piece)
    (hw : st.boardWinners bd = none)
    (hl : hasThreeInARow (st.privateBoards p bd) = true)
    (hothers : ∀ b, b ≠ bd → st.boardWinners b = none →
      hasThreeInARow (st.privateBoards .X b) = false ∧
      hasThreeInARow (st.privateBoards .O b) = false)
    (hnx : p = .O → hasThreeInARow (st.privateBoards .X bd) = false) :
    checkForWins st = award st bd p := by
  have hbd : checkBoard st bd = (award0 st bd p, true) := by
    cases p with
    | X => exact checkBoard_awardX st bd hw hl
    | O => exact checkBoard_awardO st bd hw (hnx rfl) hl
  have hnoop : ∀ st' : QState, ∀ b, b ≠ bd →
      st'.boardWinners = (award0 st bd p).boardWinners →
      st'.privateBoards = (award0 st bd p).privateBoards →
      checkBoard st' b = (st', false) := by
    intro st' b hb hbw hpv
    refine checkBoard_noop st' b (fun hwb => ?_)
    rw [hbw, award0_boardWinners, updF_other st.boardWinners (some p) hb] at hwb
    rw [hpv, award0_privateBoards]
    exact hothers b hb hwb
  cases bd with
  | A =>
    have hB : checkBoard (checkBoard st .A).1 .B = ((checkBoard st .A).1, false) := by
      rw [hbd]
      exact hnoop _ .B (by decide) rfl rfl
    have hC : checkBoard (checkBoard (checkBoard st .A).1 .B).1 .C =
        ((checkBoard (checkBoard st .A).1 .B).1, false) := by
      rw [hB, hbd]
      exact hnoop _ .C (by decide) rfl rfl
    unfold checkForWins
    dsimp only
    rw [hC, hB, hbd]
    rfl
  | B =>
    have hA : checkBoard st .A = (st, false) :=
      checkBoard_noop st .A (hothers .A (by decide))
    have hB : checkBoard (checkBoard st .A).1 .B = (award0 st .B p, true) := by
      rw [hA]
      exact hbd
    have hC : checkBoard (checkBoard (checkBoard st .A).1 .B).1 .C =
        ((checkBoard (checkBoard st .A).1 .B).1, false) := by
      rw [hB]
      exact hnoop _ .C (by decide) rfl rfl
    unfold checkForWins
    dsimp only
    rw [hC, hB, hA]
    rfl
  | C =>
    have hA : checkBoard st .A = (st, false) :=
      checkBoard_noop st .A (hothers .A (by decide))
    have hB : checkBoard (checkBoard st .A).1 .B = ((checkBoard st .A).1, false) := by
      rw [hA]
      exact checkBoard_noop st .B (hothers .B (by decide))
    have hC : checkBoard (checkBoard (checkBoard st .A).1 .B).1 .C = (award0 st .C p, true) := by
      rw [hB, hA]
      exact hbd
    unfold checkForWins
    dsimp only
    rw [hC, hB, hA]
    rfl

/-! ### Characterizing `_checkForGameEnding` -/

theorem checkForGameEnding_over (st : QState) (h : st.status = GStatus.over) :
    checkForGameEnding st = st := by
  unfold checkForGameEnding
  rw [if_pos h]

theorem checkForGameEnding_avail (st : QState) (h : st.status ≠ GStatus.over)
    (ha : (boardIds.any fun b =>
      (st.boardWinners b).isNone && decide ((st.games b).moves.length < 9)) = true) :
    checkForGameEnding st = st := by
  unfold checkForGameEnding
  rw [if_neg h, if_pos ha]

theorem checkForGameEnding_end (st : QState) (h : st.status ≠ GStatus.over)
    (ha : (boardIds.any fun b =>
      (st.boardWinners b).isNone && decide ((st.games b).moves.length < 9)) = false) :
    checkForGameEnding st = endState st := by
  unfold checkForGameEnding endState
  rw [if_neg h, if_neg (by rw [ha]; exact Bool.false_ne_true)]

/-- `_checkForGameEnding` only writes `status`, `winner` and `_result`. -/
theorem checkForGameEnding_fields (st : QState) :
    (checkForGameEnding st).moves = st.moves ∧
    (checkForGameEnding st).games = st.games ∧
    (checkForGameEnding st).privateBoards = st.privateBoards ∧
    (checkForGameEnding st).publiclyVisible = st.publiclyVisible ∧
    (checkForGameEnding st).xScore = st.xScore ∧
    (checkForGameEnding st).oScore = st.oScore ∧
    (checkForGameEnding st).xScoreP = st.xScoreP ∧
    (checkForGameEnding st).oScoreP = st.oScoreP ∧
    (checkForGameEnding st).moveCount = st.moveCount ∧
    (checkForGameEnding st).boardWinners = st.boardWinners ∧
    (checkForGameEnding st).x = st.x ∧
    (checkForGameEnding st).o = st.o ∧
    (checkForGameEnding st).id = st.id := by
  unfold checkForGameEnding
  dsimp only
  split_ifs <;> simp

/-- `Coh` only looks at the fields listed here; sub-boards matter only
through their move lists. -/
theorem coh_congr (s1 s2 : QState)
    (hmoves : s2.moves = s1.moves)
    (hgmoves : ∀ b, (s2.games b).moves = (s1.games b).moves)
    (hpriv : s2.privateBoards = s1.privateBoards)
    (hvis : s2.publiclyVisible = s1.publiclyVisible)
    (hxs : s2.xScore = s1.xScore) (hos : s2.oScore = s1.oScore)
    (hxp : s2.xScoreP = s1.xScoreP) (hop : s2.oScoreP = s1.oScoreP)
    (hmc : s2.moveCount = s1.moveCount) (hbw : s2.boardWinners = s1.boardWinners)
    (h : Coh s1) : Coh s2 := by
  obtain ⟨h1, h2, h3, h4, h5, h6, h7, h8, h9⟩ := h
  refine ⟨?_, ?_, ?_, ?_, ?_, ?_, ?_, ?_, ?_⟩
  · unfold SubBoundsInv at *
    simp only [hgmoves]
    exact h1
  · unfold SubNodupInv subMoveKeys at *
    simp only [hgmoves]
    exact h2
  · unfold PrivInv at *
    simp only [hgmoves, hpriv]
    exact h3
  · unfold AuthOccInv at *
    simp only [hmoves, hgmoves]
    exact h4
  · unfold SubAuthInv authAt at *
    simp only [hmoves, hgmoves]
    exact h5
  · unfold VisInv bothPlayed authAt at *
    simp only [hmoves, hvis]
    exact h6
  · unfold ScoreInv countWon at *
    simp only [hxs, hos, hxp, hop, hbw]
    exact h7
  · unfold MoveCountInv at *
    simp only [hmoves, hmc]
    exact h8
  · unfold NoLines at *
    simp only [hpriv, hbw]
    exact h9

theorem coh_checkForGameEnding (st : QState) (h : Coh st) :
    Coh (checkForGameEnding st) := by
  obtain ⟨h1, h2, h3, h4, h5, h6, h7, h8, h9, h10, _, _, _⟩ := checkForGameEnding_fields st
  exact coh_congr st _ h1 (fun b => by rw [h2]) h3 h4 h5 h6 h7 h8 h9 h10 h

/-! ### The three accepted paths of `applyMove` -/

theorem applyMove_eq_occupy (s : QState) (m : GameMove) (p : Piece)
    (hv : validateMove s m = .ok p)
    (hf : (s.games m.move.board).moves.find?
      (fun mv => mv.row == m.move.row && mv.col == m.move.col) = none) :
    applyMove s m =
      (checkForGameEnding (checkForWins (recordMove (occupyState s m p) m p)), none) := by
  unfold applyMove
  rw [hv]
  dsimp only
  rw [hf]
  rfl

theorem applyMove_eq_collision_seen (s : QState) (m : GameMove) (p : Piece)
    {occ : TTTMove} (hv : validateMove s m = .ok p)
    (hf : (s.games m.move.board).moves.find?
      (fun mv => mv.row == m.move.row && mv.col == m.move.col) = some occ)
    (hocc : occ.gamePiece ≠ p)
    (hvis : s.publiclyVisible m.move.board m.move.row m.move.col = true) :
    applyMove s m = (checkForGameEnding (checkForWins (recordMove s m p)), none) := by
  unfold applyMove
  rw [hv]
  dsimp only
  rw [hf]
  dsimp only
  rw [if_neg hocc, if_pos hvis]
  rfl

theorem applyMove_eq_collision_reveal (s : QState) (m : GameMove) (p : Piece)
    {occ : TTTMove} (hv : validateMove s m = .ok p)
    (hf : (s.games m.move.board).moves.find?
      (fun mv => mv.row == m.move.row && mv.col == m.move.col) = some occ)
    (hocc : occ.gamePiece ≠ p)
    (hvis : s.publiclyVisible m.move.board m.move.row m.move.col = false) :
    applyMove s m =
      (checkForGameEnding (checkForWins (recordMove (revealState s m) m p)), none) := by
  unfold applyMove
  rw [hv]
  dsimp only
  rw [hf]
  dsimp only
  rw [if_neg hocc, if_neg (by rw [hvis]; exact Bool.false_ne_true)]
  rfl

/-- Under the invariant, the occupant found by an accepted move is never the
mover's own piece (the line-241 re-check can never fire on a coherent
state). -/
theorem occupant_ne_piece (s : QState) (m : GameMove) (p : Piece) (hc : Coh s)
    (hv : validateMove s m = .ok p) {occ : TTTMove}
    (hf : (s.games m.move.board).moves.find?
      (fun mv => mv.row == m.move.row && mv.col == m.move.col) = some occ) :
    occ.gamePiece ≠ p := by
  intro hocc
  obtain ⟨hsb, _, hpriv, _, _, _, _, hmc, _⟩ := hc
  have hmem := List.mem_of_find?_eq_some hf
  have hpred := List.find?_some hf
  simp only [Bool.and_eq_true, beq_iff_eq] at hpred
  obtain ⟨hr, hcc⟩ := hpred
  obtain ⟨hrow, hcol⟩ := hsb m.move.board occ hmem
  have hpt : s.privateBoards p m.move.board m.move.row m.move.col = true :=
    (hpriv p m.move.board m.move.row (hr ▸ hrow) m.move.col (hcc ▸ hcol)).2
      ⟨occ, hmem, hocc, hr, hcc⟩
  obtain ⟨hpmover, hspec⟩ := validateMove_ok_facts s m p hmc hv
  obtain ⟨_, _, _, _, _, _, hprivF⟩ := specFirstError_none s m hspec
  rw [← hpmover, hpt] at hprivF
  cases hprivF

/-! ### Preservation of the invariant -/

theorem coh_init (gid : String) : Coh (initState gid) := by
  refine ⟨?_, ?_, ?_, ?_, ?_, ?_, ?_, ?_, ?_⟩ <;>
    simp [initState, SubBoundsInv, SubNodupInv, PrivInv, AuthOccInv, SubAuthInv,
      VisInv, ScoreInv, MoveCountInv, NoLines, countWon, subMoveKeys, initSub,
      emptyPriv, emptyVis, authAt, bothPlayed, hasThreeInARow]

theorem subJoin_moves (sub : SubState) (pid : String) :
    (subJoin sub pid).moves = sub.moves := by
  unfold subJoin
  split_ifs <;> rfl

theorem subLeave_moves (sub : SubState) (pid : String) :
    (subLeave sub pid).moves = sub.moves := by
  unfold subLeave
  split_ifs <;> rfl

theorem coh_join (s : QState) (pid : String) (h : Coh s) : Coh (joinG s pid).1 := by
  unfold joinG
  split_ifs with h1 h2 h3
  · exact h
  · exact coh_congr s _ rfl (fun b => subJoin_moves _ _) rfl rfl rfl rfl rfl rfl rfl rfl h
  · exact coh_congr s _ rfl (fun b => subJoin_moves _ _) rfl rfl rfl rfl rfl rfl
      h.2.2.2.2.2.2.2.1.symm rfl h
  · exact h

theorem coh_leave (s : QState) (pid : String) (h : Coh s) : Coh (leaveG s pid).1 := by
  unfold leaveG
  by_cases h1 : ¬(s.x = some pid) ∧ ¬(s.o = some pid)
  · rw [if_pos h1]
    exact h
  · rw [if_neg h1]
    dsimp only
    by_cases h2 : s.x.isSome = true ∧ s.o.isSome = true
    · rw [if_pos h2]
      exact coh_congr s _ rfl (fun b => subLeave_moves _ _) rfl rfl rfl rfl rfl rfl rfl rfl h
    · rw [if_neg h2]
      exact coh_init s.id

/-! ### Helpers for the accepted-move analysis -/

theorem piece_eq_other_of_ne {q p : Piece} (h : q ≠ p) : q = p.other := by
  cases q <;> cases p <;> simp_all [Piece.other]

theorem find?_none_no_occupant {l : List TTTMove} {r c : Int}
    (hf : l.find? (fun mv => mv.row == r && mv.col == c) = none) :
    ∀ mv ∈ l, ¬(mv.row = r ∧ mv.col = c) := by
  rw [List.find?_eq_none] at hf
  intro mv hm hrc
  exact hf mv hm (by simp [hrc.1, hrc.2])

theorem find?_some_cell {l : List TTTMove} {r c : Int} {occ : TTTMove}
    (hf : l.find? (fun mv => mv.row == r && mv.col == c) = some occ) :
    occ ∈ l ∧ occ.row = r ∧ occ.col = c := by
  have h1 := List.mem_of_find?_eq_some hf
  have h2 := List.find?_some hf
  simp only [Bool.and_eq_true, beq_iff_eq] at h2
  exact ⟨h1, h2.1, h2.2⟩

/-- What the appended authoritative move adds to `authAt`. -/
theorem authAt_recordMove_iff (s1 : QState) (m : GameMove) (p q : Piece)
    (b : BoardID) (r' c' : Int) :
    authAt (recordMove s1 m p) q b r' c' ↔
      authAt s1 q b r' c' ∨
      (b = m.move.board ∧ r' = m.move.row ∧ c' = m.move.col ∧ q = p) := by
  unfold authAt recordMove
  dsimp only
  constructor
  · rintro ⟨am, ham, h1, h2, h3, h4⟩
    rcases List.mem_append.mp ham with hmem | hmem
    · exact Or.inl ⟨am, hmem, h1, h2, h3, h4⟩
    · rw [List.mem_singleton] at hmem
      subst hmem
      exact Or.inr ⟨h1.symm, h2.symm, h3.symm, h4.symm⟩
  · rintro (⟨am, ham, hh⟩ | ⟨hb, hr, hcc, hq⟩)
    · exact ⟨am, List.mem_append_left _ ham, hh⟩
    · subst hb; subst hr; subst hcc; subst hq
      exact ⟨_, List.mem_append_right _ (List.mem_singleton_self _), rfl, rfl, rfl, rfl⟩

theorem accepted_facts (s : QState) (m : GameMove) (p : Piece) (hc : Coh s)
    (hv : validateMove s m = .ok p) :
    s.status = GStatus.inProgress ∧
    m.move.row ∈ range3 ∧ m.move.col ∈ range3 ∧
    s.boardWinners m.move.board = none ∧
    s.privateBoards p m.move.board m.move.row m.move.col = false := by
  have hmc : s.moveCount = s.moves.length := hc.2.2.2.2.2.2.2.1
  obtain ⟨hpm, hspec⟩ := validateMove_ok_facts s m p hmc hv
  obtain ⟨hst, _, _, hrw, hcw, hbw, hpf⟩ := specFirstError_none s m hspec
  rw [← hpm] at hpf
  exact ⟨hst, mem_range3_iff.2 hrw, mem_range3_iff.2 hcw, hbw, hpf⟩

theorem bothPlayed_of_pair {s2 : QState} {b : BoardID} {r c : Int} (p : Piece)
    (h1 : authAt s2 p b r c) (h2 : authAt s2 p.other b r c) :
    bothPlayed s2 b r c := by
  cases p
  · exact ⟨h1, h2⟩
  · exact ⟨h2, h1⟩

/-- With no occupant at the cell, no authoritative move targets it either. -/
theorem no_auth_of_find?_none (s : QState) (m : GameMove) (h4 : AuthOccInv s)
    (hf : (s.games m.move.board).moves.find?
      (fun mv => mv.row == m.move.row && mv.col == m.move.col) = none)
    (q : Piece) : ¬ authAt s q m.move.board m.move.row m.move.col := by
  rintro ⟨am, ham, hb, hr, hcc, hq⟩
  obtain ⟨mv, hmv, hr2, hc2⟩ := h4 am ham
  rw [hb] at hmv
  exact find?_none_no_occupant hf mv hmv ⟨by rw [hr2, hr], by rw [hc2, hcc]⟩

/-- Invariant after an accepted collision move on an already revealed cell. -/
theorem coh_after_collision_seen (s : QState) (m : GameMove) (p : Piece) {occ : TTTMove}
    (hc : Coh s) (hv : validateMove s m = .ok p)
    (hf : (s.games m.move.board).moves.find?
      (fun mv => mv.row == m.move.row && mv.col == m.move.col) = some occ)
    (hocc : occ.gamePiece ≠ p)
    (hvis : s.publiclyVisible m.move.board m.move.row m.move.col = true) :
    Coh (recordMove s m p) := by
  obtain ⟨hmem, hrow, hcol⟩ := find?_some_cell hf
  obtain ⟨h1, h2, h3, h4, h5, h6, h7, h8, h9⟩ := hc
  have hothersAuth : authAt s p.other m.move.board m.move.row m.move.col := by
    have h := h5 m.move.board occ hmem
    rw [hrow, hcol, piece_eq_other_of_ne hocc] at h
    exact h
  refine ⟨h1, h2, h3, ?_, ?_, ?_, h7, rfl, h9⟩
  · intro am ham
    rcases List.mem_append.mp ham with hm | hm
    · exact h4 am hm
    · rw [List.mem_singleton] at hm
      subst hm
      exact ⟨occ, hmem, by rw [hrow], by rw [hcol]⟩
  · intro b mv hmv
    rw [authAt_recordMove_iff]
    exact Or.inl (h5 b mv hmv)
  · intro b r' hr' c' hc'
    by_cases hcell : b = m.move.board ∧ r' = m.move.row ∧ c' = m.move.col
    · obtain ⟨hb, hr, hcc⟩ := hcell
      subst hb; subst hr; subst hcc
      constructor
      · intro _
        exact bothPlayed_of_pair p
          ((authAt_recordMove_iff s m p p _ _ _).2 (Or.inr ⟨rfl, rfl, rfl, rfl⟩))
          ((authAt_recordMove_iff s m p p.other _ _ _).2 (Or.inl hothersAuth))
      · intro _
        exact hvis
    · have hiff := h6 b r' hr' c' hc'
      constructor
      · intro hv2
        obtain ⟨hX, hO⟩ := hiff.1 hv2
        exact ⟨(authAt_recordMove_iff s m p .X b r' c').2 (Or.inl hX),
          (authAt_recordMove_iff s m p .O b r' c').2 (Or.inl hO)⟩
      · rintro ⟨hX, hO⟩
        have hX' : authAt s .X b r' c' := by
          rcases (authAt_recordMove_iff s m p .X b r' c').1 hX with h | ⟨hb, hr, hcc, _⟩
          · exact h
          · exact absurd ⟨hb, hr, hcc⟩ hcell
        have hO' : authAt s .O b r' c' := by
          rcases (authAt_recordMove_iff s m p .O b r' c').1 hO with h | ⟨hb, hr, hcc, _⟩
          · exact h
          · exact absurd ⟨hb, hr, hcc⟩ hcell
        exact hiff.2 ⟨hX', hO'⟩

/-- Invariant after an accepted collision move that reveals the cell. -/
theorem coh_after_collision_reveal (s : QState) (m : GameMove) (p : Piece) {occ : TTTMove}
    (hc : Coh s) (hv : validateMove s m = .ok p)
    (hf : (s.games m.move.board).moves.find?
      (fun mv => mv.row == m.move.row && mv.col == m.move.col) = some occ)
    (hocc : occ.gamePiece ≠ p) :
    Coh (recordMove (revealState s m) m p) := by
  obtain ⟨hmem, hrow, hcol⟩ := find?_some_cell hf
  obtain ⟨h1, h2, h3, h4, h5, h6, h7, h8, h9⟩ := hc
  have hothersAuth : authAt s p.other m.move.board m.move.row m.move.col := by
    have h := h5 m.move.board occ hmem
    rw [hrow, hcol, piece_eq_other_of_ne hocc] at h
    exact h
  have hvisEq : (recordMove (revealState s m) m p).publiclyVisible =
      setVis s.publiclyVisible m.move.board m.move.row m.move.col := rfl
  have hauthEq : ∀ q b r' c', authAt (recordMove (revealState s m) m p) q b r' c' ↔
      authAt s q b r' c' ∨
      (b = m.move.board ∧ r' = m.move.row ∧ c' = m.move.col ∧ q = p) :=
    fun q b r' c' => authAt_recordMove_iff (revealState s m) m p q b r' c'
  refine ⟨h1, h2, h3, ?_, ?_, ?_, h7, rfl, h9⟩
  · intro am ham
    rcases List.mem_append.mp ham with hm | hm
    · exact h4 am hm
    · rw [List.mem_singleton] at hm
      subst hm
      exact ⟨occ, hmem, by rw [hrow], by rw [hcol]⟩
  · intro b mv hmv
    rw [hauthEq]
    exact Or.inl (h5 b mv hmv)
  · intro b r' hr' c' hc'
    rw [hvisEq]
    by_cases hcell : b = m.move.board ∧ r' = m.move.row ∧ c' = m.move.col
    · obtain ⟨hb, hr, hcc⟩ := hcell
      subst hb; subst hr; subst hcc
      rw [setVis_self]
      constructor
      · intro _
        exact bothPlayed_of_pair p
          ((hauthEq p _ _ _).2 (Or.inr ⟨rfl, rfl, rfl, rfl⟩))
          ((hauthEq p.other _ _ _).2 (Or.inl hothersAuth))
      · intro _
        rfl
    · rw [setVis_other s.publiclyVisible hcell]
      have hiff := h6 b r' hr' c' hc'
      constructor
      · intro hv2
        obtain ⟨hX, hO⟩ := hiff.1 hv2
        exact ⟨(hauthEq .X b r' c').2 (Or.inl hX), (hauthEq .O b r' c').2 (Or.inl hO)⟩
      · rintro ⟨hX, hO⟩
        have hX' : authAt s .X b r' c' := by
          rcases (hauthEq .X b r' c').1 hX with h | ⟨hb, hr, hcc, _⟩
          · exact h
          · exact absurd ⟨hb, hr, hcc⟩ hcell
        have hO' : authAt s .O b r' c' := by
          rcases (hauthEq .O b r' c').1 hO with h | ⟨hb, hr, hcc, _⟩
          · exact h
          · exact absurd ⟨hb, hr, hcc⟩ hcell
        exact hiff.2 ⟨hX', hO'⟩

/-- All invariant parts except `NoLines` after the non-collision mutations and
the log append (`NoLines` may genuinely break there until `_checkForWins`
runs). -/
theorem coh0_after_occupy (s : QState) (m : GameMove) (p : Piece)
    (hc : Coh s) (hv : validateMove s m = .ok p)
    (hf : (s.games m.move.board).moves.find?
      (fun mv => mv.row == m.move.row && mv.col == m.move.col) = none) :
    SubBoundsInv (recordMove (occupyState s m p) m p) ∧
    SubNodupInv (recordMove (occupyState s m p) m p) ∧
    PrivInv (recordMove (occupyState s m p) m p) ∧
    AuthOccInv (recordMove (occupyState s m p) m p) ∧
    SubAuthInv (recordMove (occupyState s m p) m p) ∧
    VisInv (recordMove (occupyState s m p) m p) ∧
    ScoreInv (recordMove (occupyState s m p) m p) ∧
    MoveCountInv (recordMove (occupyState s m p) m p) := by
  obtain ⟨hst, hrin, hcin, hwbd, hpF⟩ := accepted_facts s m p hc hv
  obtain ⟨h1, h2, h3, h4, h5, h6, h7, h8, h9⟩ := hc
  have hnoocc := find?_none_no_occupant hf
  have hgbd : ((recordMove (occupyState s m p) m p).games m.move.board).moves =
      (s.games m.move.board).moves ++
        [({ gamePiece := p, row := m.move.row, col := m.move.col } : TTTMove)] := by
    show (updF s.games m.move.board _ m.move.board).moves = _
    rw [updF_self]
    rfl
  have hgo : ∀ b, b ≠ m.move.board →
      ((recordMove (occupyState s m p) m p).games b).moves = (s.games b).moves := by
    intro b hb
    show (updF s.games m.move.board _ b).moves = _
    rw [updF_other _ _ hb]
  have hauthEq : ∀ q b r' c',
      authAt (recordMove (occupyState s m p) m p) q b r' c' ↔
      authAt s q b r' c' ∨
      (b = m.move.board ∧ r' = m.move.row ∧ c' = m.move.col ∧ q = p) :=
    fun q b r' c' => authAt_recordMove_iff (occupyState s m p) m p q b r' c'
  have hprivEq : (recordMove (occupyState s m p) m p).privateBoards =
      setPriv s.privateBoards p m.move.board m.move.row m.move.col := rfl
  refine ⟨?_, ?_, ?_, ?_, ?_, ?_, h7, rfl⟩
  · intro b mv hmv
    by_cases hb : b = m.move.board
    · subst hb
      rw [hgbd] at hmv
      rcases List.mem_append.mp hmv with hm | hm
      · exact h1 _ mv hm
      · rw [List.mem_singleton] at hm
        subst hm
        exact ⟨hrin, hcin⟩
    · rw [hgo b hb] at hmv
      exact h1 b mv hmv
  · intro b
    by_cases hb : b = m.move.board
    · subst hb
      unfold subMoveKeys
      rw [hgbd, List.map_append, List.nodup_append]
      refine ⟨h2 _, by simp, ?_⟩
      intro k hk
      simp only [List.map_cons, List.map_nil, List.mem_singleton, List.mem_cons,
        List.not_mem_nil, or_false]
      obtain ⟨mv, hmv, hkey⟩ := List.mem_map.mp hk
      intro hkeq
      rw [hkeq] at hkey
      injection hkey with ha hb2
      exact hnoocc mv hmv ⟨ha, hb2⟩
    · unfold subMoveKeys
      rw [hgo b hb]
      exact h2 b
  · intro q b r' hr' c' hc'
    by_cases hcell : q = p ∧ b = m.move.board ∧ r' = m.move.row ∧ c' = m.move.col
    · obtain ⟨hq, hb, hr, hcc⟩ := hcell
      subst hq; subst hb; subst hr; subst hcc
      constructor
      · intro _
        refine ⟨{ gamePiece := q, row := m.move.row, col := m.move.col }, ?_, rfl, rfl, rfl⟩
        rw [hgbd]
        exact List.mem_append_right _ (List.mem_singleton_self _)
      · intro _
        rw [hprivEq]
        exact setPriv_self s.privateBoards q m.move.board m.move.row m.move.col
    · rw [hprivEq]
      rw [show setPriv s.privateBoards p m.move.board m.move.row m.move.col q b r' c'
          = s.privateBoards q b r' c' from setPriv_other s.privateBoards hcell]
      by_cases hb : b = m.move.board
      · subst hb
        rw [hgbd]
        constructor
        · intro hp
          obtain ⟨mv, hmv, hh⟩ := (h3 q _ r' hr' c' hc').1 hp
          exact ⟨mv, List.mem_append_left _ hmv, hh⟩
        · rintro ⟨mv, hmv, hq, hr, hcc⟩
          rcases List.mem_append.mp hmv with hm | hm
          · exact (h3 q _ r' hr' c' hc').2 ⟨mv, hm, hq, hr, hcc⟩
          · rw [List.mem_singleton] at hm
            subst hm
            exact absurd ⟨hq.symm, rfl, hr.symm, hcc.symm⟩ hcell
      · rw [hgo b hb]
        exact h3 q b r' hr' c' hc'
  · intro am ham
    rcases List.mem_append.mp ham with hm | hm
    · obtain ⟨mv, hmv, hh⟩ := h4 am hm
      by_cases hb : am.board = m.move.board
      · rw [hb, hgbd]
        rw [hb] at hmv
        exact ⟨mv, List.mem_append_left _ hmv, hh⟩
      · rw [hgo am.board hb]
        exact ⟨mv, hmv, hh⟩
    · rw [List.mem_singleton] at hm
      subst hm
      rw [hgbd]
      exact ⟨{ gamePiece := p, row := m.move.row, col := m.move.col },
        List.mem_append_right _ (List.mem_singleton_self _), rfl, rfl⟩
  · intro b mv hmv
    by_cases hb : b = m.move.board
    · subst hb
      rw [hgbd] at hmv
      rcases List.mem_append.mp hmv with hm | hm
      · rw [hauthEq]
        exact Or.inl (h5 _ mv hm)
      · rw [List.mem_singleton] at hm
        subst hm
        rw [hauthEq]
        exact Or.inr ⟨rfl, rfl, rfl, rfl⟩
    · rw [hgo b hb] at hmv
      rw [hauthEq]
      exact Or.inl (h5 b mv hmv)
  · intro b r' hr' c' hc'
    by_cases hcell : b = m.move.board ∧ r' = m.move.row ∧ c' = m.move.col
    · obtain ⟨hb, hr, hcc⟩ := hcell
      subst hb; subst hr; subst hcc
      have hvf : s.publiclyVisible m.move.board m.move.row m.move.col = false := by
        cases hvv : s.publiclyVisible m.move.board m.move.row m.move.col with
        | false => rfl
        | true =>
          obtain ⟨hX, hO⟩ := (h6 m.move.board m.move.row hr' m.move.col hc').1 hvv
          exact absurd hX (no_auth_of_find?_none s m h4 hf .X)
      constructor
      · intro hv2
        rw [show (recordMove (occupyState s m p) m p).publiclyVisible
              m.move.board m.move.row m.move.col
            = s.publiclyVisible m.move.board m.move.row m.move.col from rfl, hvf] at hv2
        cases hv2
      · rintro ⟨hX, hO⟩
        exfalso
        have hXp : Piece.X = p := by
          rcases (hauthEq .X m.move.board m.move.row m.move.col).1 hX with h | ⟨_, _, _, hq⟩
          · exact absurd h (no_auth_of_find?_none s m h4 hf .X)
          · exact hq
        have hOp : Piece.O = p := by
          rcases (hauthEq .O m.move.board m.move.row m.move.col).1 hO with h | ⟨_, _, _, hq⟩
          · exact absurd h (no_auth_of_find?_none s m h4 hf .O)
          · exact hq
        rw [← hXp] at hOp
        cases hOp
    · have hiff := h6 b r' hr' c' hc'
      constructor
      · intro hv2
        obtain ⟨hX, hO⟩ := hiff.1 hv2
        exact ⟨(hauthEq .X b r' c').2 (Or.inl hX), (hauthEq .O b r' c').2 (Or.inl hO)⟩
      · rintro ⟨hX, hO⟩
        have hX2 : authAt s .X b r' c' := by
          rcases (hauthEq .X b r' c').1 hX with h | ⟨hb, hr, hcc, _⟩
          · exact h
          · exact absurd ⟨hb, hr, hcc⟩ hcell
        have hO2 : authAt s .O b r' c' := by
          rcases (hauthEq .O b r' c').1 hO with h | ⟨hb, hr, hcc, _⟩
          · exact h
          · exact absurd ⟨hb, hr, hcc⟩ hcell
        exact hiff.2 ⟨hX2, hO2⟩

/-! ### The award preserves the invariant -/

theorem award_xScoreP (st : QState) (bd : BoardID) (p : Piece) :
    (award st bd p).xScoreP = st.xScoreP + (if p = .X then 1 else 0) := by
  cases p <;> simp [award, award0]

theorem award_oScoreP (st : QState) (bd : BoardID) (p : Piece) :
    (award st bd p).oScoreP = st.oScoreP + (if p = .O then 1 else 0) := by
  cases p <;> simp [award, award0]

theorem award_xScore (st : QState) (bd : BoardID) (p : Piece) :
    (award st bd p).xScore = (award st bd p).xScoreP := by
  cases p <;> rfl

theorem award_oScore (st : QState) (bd : BoardID) (p : Piece) :
    (award st bd p).oScore = (award st bd p).oScoreP := by
  cases p <;> rfl

theorem award_boardWinners (st : QState) (bd : BoardID) (p : Piece) :
    (award st bd p).boardWinners = updF st.boardWinners bd (some p) := by
  cases p <;> rfl

theorem award_privateBoards (st : QState) (bd : BoardID) (p : Piece) :
    (award st bd p).privateBoards = st.privateBoards := by
  cases p <;> rfl

theorem award_publiclyVisible (st : QState) (bd : BoardID) (p : Piece) :
    (award st bd p).publiclyVisible = st.publiclyVisible := by
  cases p <;> rfl

theorem award_moves (st : QState) (bd : BoardID) (p : Piece) :
    (award st bd p).moves = st.moves := by
  cases p <;> rfl

theorem award_moveCount (st : QState) (bd : BoardID) (p : Piece) :
    (award st bd p).moveCount = st.moveCount := by
  cases p <;> rfl

theorem award_status (st : QState) (bd : BoardID) (p : Piece) :
    (award st bd p).status = st.status := by
  cases p <;> rfl

theorem award_x (st : QState) (bd : BoardID) (p : Piece) :
    (award st bd p).x = st.x := by
  cases p <;> rfl

theorem award_o (st : QState) (bd : BoardID) (p : Piece) :
    (award st bd p).o = st.o := by
  cases p <;> rfl

theorem award_id (st : QState) (bd : BoardID) (p : Piece) :
    (award st bd p).id = st.id := by
  cases p <;> rfl

theorem award_games_self2 (st : QState) (bd : BoardID) (p : Piece) :
    (award st bd p).games bd =
      markWon (st.games bd) (match p with | .X => st.x | .O => st.o) := by
  cases p <;> simp [award, award0, updF_self]

theorem award_games_moves (st : QState) (bd : BoardID) (p : Piece) (b : BoardID) :
    ((award st bd p).games b).moves = (st.games b).moves := by
  have hg : (award st bd p).games =
      updF st.games bd (markWon (st.games bd) (match p with | .X => st.x | .O => st.o)) := by
    cases p <;> rfl
  rw [hg]
  by_cases hb : b = bd
  · subst hb
    rw [updF_self]
    rfl
  · rw [updF_other _ _ hb]

theorem countWon_award (st : QState) (bd : BoardID) (p q : Piece)
    (hw : st.boardWinners bd = none) :
    countWon (award st bd p) q = countWon st q + (if q = p then 1 else 0) := by
  unfold countWon
  rw [award_boardWinners]
  by_cases hpq : q = p
  · subst hpq
    cases bd <;> simp [updF, hw] <;> omega
  · have hqp : ¬p = q := fun h => hpq h.symm
    cases bd <;> simp [updF, hw, hpq, hqp]

theorem coh_award (st : QState) (bd : BoardID) (p : Piece)
    (h1 : SubBoundsInv st) (h2 : SubNodupInv st) (h3 : PrivInv st) (h4 : AuthOccInv st)
    (h5 : SubAuthInv st) (h6 : VisInv st) (h7 : ScoreInv st) (h8 : MoveCountInv st)
    (hw : st.boardWinners bd = none)
    (hli : ∀ b q, st.boardWinners b = none → ¬(b = bd ∧ q = p) →
      hasThreeInARow (st.privateBoards q b) = false) :
    Coh (award st bd p) := by
  refine ⟨?_, ?_, ?_, ?_, ?_, ?_, ?_, ?_, ?_⟩
  · intro b mv hmv
    rw [award_games_moves] at hmv
    exact h1 b mv hmv
  · intro b
    unfold subMoveKeys
    rw [award_games_moves]
    exact h2 b
  · intro q b r' hr' c' hc'
    rw [award_privateBoards, award_games_moves]
    exact h3 q b r' hr' c' hc'
  · intro am ham
    rw [award_moves] at ham
    rw [award_games_moves]
    exact h4 am ham
  · intro b mv hmv
    rw [award_games_moves] at hmv
    unfold authAt
    rw [award_moves]
    exact h5 b mv hmv
  · intro b r' hr' c' hc'
    have h := h6 b r' hr' c' hc'
    unfold bothPlayed authAt at h ⊢
    rw [award_publiclyVisible, award_moves]
    exact h
  · refine ⟨?_, ?_, award_xScore st bd p, award_oScore st bd p⟩
    · rw [award_xScoreP, countWon_award st bd p .X hw, ← h7.1]
      cases p <;> simp
    · rw [award_oScoreP, countWon_award st bd p .O hw, ← h7.2.1]
      cases p <;> simp
  · unfold MoveCountInv
    rw [award_moveCount, award_moves]
    exact h8
  · intro b hwb
    rw [award_boardWinners] at hwb
    by_cases hb : b = bd
    · subst hb
      rw [updF_self] at hwb
      cases hwb
    · rw [updF_other _ _ hb] at hwb
      rw [award_privateBoards]
      exact ⟨hli b .X hwb (fun hh => hb hh.1), hli b .O hwb (fun hh => hb hh.1)⟩

/-! ### Preservation through `applyMove` -/

theorem applyMove_err_of_validate (s : QState) (m : GameMove) (e : GameErr)
    (hv : validateMove s m = .error e) : applyMove s m = (s, some e) := by
  unfold applyMove
  rw [hv]

theorem coh_applyMove (s : QState) (m : GameMove) (hc : Coh s) :
    Coh (applyMove s m).1 := by
  cases hv : validateMove s m with
  | error e =>
    rw [applyMove_err_of_validate s m e hv]
    exact hc
  | ok p =>
    obtain ⟨hst, hrin, hcin, hwbd, hpF⟩ := accepted_facts s m p hc hv
    cases hf : (s.games m.move.board).moves.find?
        (fun mv => mv.row == m.move.row && mv.col == m.move.col) with
    | none =>
      rw [applyMove_eq_occupy s m p hv hf]
      obtain ⟨k1, k2, k3, k4, k5, k6, k7, k8⟩ := coh0_after_occupy s m p hc hv hf
      apply coh_checkForGameEnding
      have hs2bw : (recordMove (occupyState s m p) m p).boardWinners = s.boardWinners := rfl
      have hlio : ∀ b q, (recordMove (occupyState s m p) m p).boardWinners b = none →
          ¬(b = m.move.board ∧ q = p) →
          hasThreeInARow ((recordMove (occupyState s m p) m p).privateBoards q b) = false := by
        intro b q hwb hbq
        have heq : ∀ r' c' : Int,
            (recordMove (occupyState s m p) m p).privateBoards q b r' c' =
            s.privateBoards q b r' c' := by
          intro r' c'
          show setPriv s.privateBoards p m.move.board m.move.row m.move.col q b r' c' = _
          apply setPriv_other
          rintro ⟨hq, hb, _, _⟩
          exact hbq ⟨hb, hq⟩
        rw [hasThreeInARow_congr heq]
        cases q with
        | X => exact (hc.2.2.2.2.2.2.2.2 b hwb).1
        | O => exact (hc.2.2.2.2.2.2.2.2 b hwb).2
      have hwbd2 : (recordMove (occupyState s m p) m p).boardWinners m.move.board = none :=
        hwbd
      by_cases hl : hasThreeInARow
          ((recordMove (occupyState s m p) m p).privateBoards p m.move.board) = true
      · rw [checkForWins_award _ m.move.board p hwbd2 hl
          (fun b hb hwb => ⟨hlio b .X hwb (fun hh => hb hh.1), hlio b .O hwb (fun hh => hb hh.1)⟩)
          (fun hp => hlio m.move.board .X hwbd2 (fun hh => by rw [hp] at hh; cases hh.2))]
        exact coh_award _ m.move.board p k1 k2 k3 k4 k5 k6 k7 k8 hwbd2 hlio
      · have hlf : hasThreeInARow
            ((recordMove (occupyState s m p) m p).privateBoards p m.move.board) = false := by
          cases hres : hasThreeInARow
              ((recordMove (occupyState s m p) m p).privateBoards p m.move.board) with
          | false => rfl
          | true => exact absurd hres hl
        have hno : ∀ b, (recordMove (occupyState s m p) m p).boardWinners b = none →
            hasThreeInARow ((recordMove (occupyState s m p) m p).privateBoards .X b) = false ∧
            hasThreeInARow ((recordMove (occupyState s m p) m p).privateBoards .O b) = false := by
          intro b hwb
          by_cases hb : b = m.move.board
          · subst hb
            cases p with
            | X => exact ⟨hlf, hlio m.move.board .O hwb (fun hh => by cases hh.2)⟩
            | O => exact ⟨hlio m.move.board .X hwb (fun hh => by cases hh.2), hlf⟩
          · exact ⟨hlio b .X hwb (fun hh => hb hh.1), hlio b .O hwb (fun hh => hb hh.1)⟩
        rw [checkForWins_noop _ hno]
        exact ⟨k1, k2, k3, k4, k5, k6, k7, k8, hno⟩
    | some occ =>
      have hocc := occupant_ne_piece s m p hc hv hf
      cases hvis : s.publiclyVisible m.move.board m.move.row m.move.col with
      | true =>
        rw [applyMove_eq_collision_seen s m p hv hf hocc hvis]
        apply coh_checkForGameEnding
        have hcoh2 := coh_after_collision_seen s m p hc hv hf hocc hvis
        rw [checkForWins_noop _ (fun b hwb => hcoh2.2.2.2.2.2.2.2.2 b hwb)]
        exact hcoh2
      | false =>
        rw [applyMove_eq_collision_reveal s m p hv hf hocc hvis]
        apply coh_checkForGameEnding
        have hcoh2 := coh_after_collision_reveal s m p hc hv hf hocc
        rw [checkForWins_noop _ (fun b hwb => hcoh2.2.2.2.2.2.2.2.2 b hwb)]
        exact hcoh2

theorem reachable_coh {s : QState} (h : Reachable s) : Coh s := by
  induction h with
  | init gid => exact coh_init gid
  | join pid _ ih => exact coh_join _ pid ih
  | leave pid _ ih => exact coh_leave _ pid ih
  | move m _ ih => exact coh_applyMove _ m ih

/-! ### Field lemmas for `_checkForWins` and `endState` -/

theorem checkBoard_fst_fields (st : QState) (b : BoardID) :
    (checkBoard st b).1.x = st.x ∧ (checkBoard st b).1.o = st.o ∧
    (checkBoard st b).1.id = st.id ∧ (checkBoard st b).1.status = st.status ∧
    (checkBoard st b).1.moves = st.moves ∧ (checkBoard st b).1.moveCount = st.moveCount ∧
    (checkBoard st b).1.publiclyVisible = st.publiclyVisible ∧
    (checkBoard st b).1.privateBoards = st.privateBoards ∧
    (checkBoard st b).1.result = st.result ∧
    (checkBoard st b).1.winner = st.winner := by
  unfold checkBoard
  split
  · exact ⟨rfl, rfl, rfl, rfl, rfl, rfl, rfl, rfl, rfl, rfl⟩
  · split_ifs <;> exact ⟨rfl, rfl, rfl, rfl, rfl, rfl, rfl, rfl, rfl, rfl⟩

theorem checkBoard_games_moves (st : QState) (b b' : BoardID) :
    ((checkBoard st b).1.games b').moves = (st.games b').moves := by
  unfold checkBoard
  split
  · rfl
  · split_ifs <;>
      first
      | rfl
      | · dsimp only
          by_cases hb : b' = b
          · subst hb
            rw [updF_self]
            rfl
          · rw [updF_other _ _ hb]

theorem checkForWins_fields (st : QState) :
    (checkForWins st).x = st.x ∧ (checkForWins st).o = st.o ∧
    (checkForWins st).id = st.id ∧ (checkForWins st).status = st.status ∧
    (checkForWins st).moves = st.moves ∧ (checkForWins st).moveCount = st.moveCount ∧
    (checkForWins st).publiclyVisible = st.publiclyVisible ∧
    (checkForWins st).privateBoards = st.privateBoards ∧
    (checkForWins st).result = st.result ∧
    (checkForWins st).winner = st.winner := by
  obtain ⟨a1, a2, a3, a4, a5, a6, a7, a8, a9, a10⟩ := checkBoard_fst_fields st .A
  obtain ⟨b1, b2, b3, b4, b5, b6, b7, b8, b9, b10⟩ :=
    checkBoard_fst_fields (checkBoard st .A).1 .B
  obtain ⟨c1, c2, c3, c4, c5, c6, c7, c8, c9, c10⟩ :=
    checkBoard_fst_fields (checkBoard (checkBoard st .A).1 .B).1 .C
  unfold checkForWins
  dsimp only
  split_ifs <;>
    exact ⟨by rw [c1, b1, a1], by rw [c2, b2, a2], by rw [c3, b3, a3],
      by rw [c4, b4, a4], by rw [c5, b5, a5], by rw [c6, b6, a6],
      by rw [c7, b7, a7], by rw [c8, b8, a8], by rw [c9, b9, a9],
      by rw [c10, b10, a10]⟩

theorem checkForWins_games_moves (st : QState) (b : BoardID) :
    ((checkForWins st).games b).moves = ((st.games b)).moves := by
  have g1 := checkBoard_games_moves st .A b
  have g2 := checkBoard_games_moves (checkBoard st .A).1 .B b
  have g3 := checkBoard_games_moves (checkBoard (checkBoard st .A).1 .B).1 .C b
  unfold checkForWins
  dsimp only
  split_ifs <;> rw [g3, g2, g1]

theorem endState_fields (st : QState) :
    (endState st).moves = st.moves ∧ (endState st).games = st.games ∧
    (endState st).privateBoards = st.privateBoards ∧
    (endState st).publiclyVisible = st.publiclyVisible ∧
    (endState st).xScore = st.xScore ∧ (endState st).oScore = st.oScore ∧
    (endState st).xScoreP = st.xScoreP ∧ (endState st).oScoreP = st.oScoreP ∧
    (endState st).moveCount = st.moveCount ∧
    (endState st).boardWinners = st.boardWinners ∧
    (endState st).x = st.x ∧ (endState st).o = st.o ∧ (endState st).id = st.id ∧
    (endState st).status = GStatus.over := by
  unfold endState
  dsimp only
  split_ifs <;>
    exact ⟨rfl, rfl, rfl, rfl, rfl, rfl, rfl, rfl, rfl, rfl, rfl, rfl, rfl, rfl⟩

/-- When validation passes, the mover holds the slot their piece names. -/
theorem moverPiece_slot (s : QState) (m : GameMove)
    (hsome : s.x = some m.playerID ∨ s.o = some m.playerID) :
    (moverPiece s m = .X → s.x = some m.playerID) ∧
    (moverPiece s m = .O → s.o = some m.playerID) := by
  unfold moverPiece
  by_cases hx : s.x = some m.playerID
  · rw [if_pos hx]
    exact ⟨fun _ => hx, fun h => by cases h⟩
  · rw [if_neg hx]
    rcases hsome with h | h
    · exact absurd h hx
    · exact ⟨fun hh => Piece.noConfusion hh, fun _ => h⟩

/-- Decomposition of an accepted `applyMove` relative to the entry state:
there is an intermediate state `st3` (the post-win-detection state) that the
termination check turns into the final state; `st3` agrees with `s` on
everything win detection cannot touch, and is either the no-award extension
of `s` or carries exactly one new award on the played board, for the mover's
piece. -/
theorem applyMove_accept_decomp (s : QState) (m : GameMove) (hc : Coh s)
    (hacc : (applyMove s m).2 = none) :
    ∃ st3 : QState,
      applyMove s m = (checkForGameEnding st3, none) ∧ Coh st3 ∧
      st3.status = s.status ∧ st3.x = s.x ∧ st3.o = s.o ∧ st3.id = s.id ∧
      s.status = GStatus.inProgress ∧
      (s.x = some m.playerID ∨ s.o = some m.playerID) ∧
      ((st3.boardWinners = s.boardWinners ∧
        st3.xScore = s.xScore ∧ st3.oScore = s.oScore ∧
        (∀ b, s.boardWinners b = none →
          hasThreeInARow (st3.privateBoards (moverPiece s m) b) = false)) ∨
       (st3.boardWinners = updF s.boardWinners m.move.board (some (moverPiece s m)) ∧
        s.boardWinners m.move.board = none ∧
        scoreOf st3 (moverPiece s m) = scoreOf s (moverPiece s m) + 1 ∧
        scoreOf st3 (moverPiece s m).other = scoreOf s (moverPiece s m).other ∧
        (st3.games m.move.board).status = GStatus.over ∧
        (st3.games m.move.board).winner = some m.playerID ∧
        hasThreeInARow (st3.privateBoards (moverPiece s m) m.move.board) = true ∧
        (∀ b, b ≠ m.move.board → s.boardWinners b = none →
          hasThreeInARow (st3.privateBoards (moverPiece s m) b) = false))) := by
  cases hv : validateMove s m with
  | error e =>
    rw [applyMove_err_of_validate s m e hv] at hacc
    cases hacc
  | ok p =>
    have hmc : s.moveCount = s.moves.length := hc.2.2.2.2.2.2.2.1
    obtain ⟨hpm, hspec⟩ := validateMove_ok_facts s m p hmc hv
    obtain ⟨hst, hslot, _, _, _, _, _⟩ := specFirstError_none s m hspec
    obtain ⟨_, hrin, hcin, hwbd, hpF⟩ := accepted_facts s m p hc hv
    subst hpm
    have hsyncX : s.xScore = s.xScoreP := hc.2.2.2.2.2.2.1.2.2.1
    have hsyncO : s.oScore = s.oScoreP := hc.2.2.2.2.2.2.1.2.2.2
    cases hf : (s.games m.move.board).moves.find?
        (fun mv => mv.row == m.move.row && mv.col == m.move.col) with
    | none =>
      obtain ⟨k1, k2, k3, k4, k5, k6, k7, k8⟩ :=
        coh0_after_occupy s m (moverPiece s m) hc hv hf
      have hwbd2 : (recordMove (occupyState s m (moverPiece s m)) m
          (moverPiece s m)).boardWinners m.move.board = none := hwbd
      have hlio : ∀ b q, (recordMove (occupyState s m (moverPiece s m)) m
            (moverPiece s m)).boardWinners b = none →
          ¬(b = m.move.board ∧ q = moverPiece s m) →
          hasThreeInARow ((recordMove (occupyState s m (moverPiece s m)) m
            (moverPiece s m)).privateBoards q b) = false := by
        intro b q hwb hbq
        have heq : ∀ r' c' : Int,
            (recordMove (occupyState s m (moverPiece s m)) m
              (moverPiece s m)).privateBoards q b r' c' =
            s.privateBoards q b r' c' := by
          intro r' c'
          show setPriv s.privateBoards (moverPiece s m) m.move.board m.move.row
            m.move.col q b r' c' = _
          apply setPriv_other
          rintro ⟨hq, hb, _, _⟩
          exact hbq ⟨hb, hq⟩
        rw [hasThreeInARow_congr heq]
        cases q with
        | X => exact (hc.2.2.2.2.2.2.2.2 b hwb).1
        | O => exact (hc.2.2.2.2.2.2.2.2 b hwb).2
      by_cases hl : hasThreeInARow ((recordMove (occupyState s m (moverPiece s m)) m
          (moverPiece s m)).privateBoards (moverPiece s m) m.move.board) = true
      · -- the award outcome
        refine ⟨award (recordMove (occupyState s m (moverPiece s m)) m (moverPiece s m))
            m.move.board (moverPiece s m), ?_, ?_, ?_, ?_, ?_, ?_, hst, hslot, Or.inr
            ⟨?_, hwbd, ?_, ?_, ?_, ?_, ?_, ?_⟩⟩
        · rw [applyMove_eq_occupy s m (moverPiece s m) hv hf,
            checkForWins_award _ m.move.board (moverPiece s m) hwbd2 hl
              (fun b hb hwb => ⟨hlio b .X hwb (fun hh => hb hh.1),
                hlio b .O hwb (fun hh => hb hh.1)⟩)
              (fun hp => hlio m.move.board .X hwbd2
                (fun hh => by rw [hp] at hh; cases hh.2))]
        · exact coh_award _ m.move.board (moverPiece s m) k1 k2 k3 k4 k5 k6 k7 k8 hwbd2 hlio
        · exact award_status _ _ _
        · exact award_x _ _ _
        · exact award_o _ _ _
        · exact award_id _ _ _
        · exact award_boardWinners _ _ _
        · cases hmp : moverPiece s m with
          | X =>
            show (award _ m.move.board .X).xScore = s.xScore + 1
            rw [award_xScore, award_xScoreP, hsyncX]
            simp
            rfl
          | O =>
            show (award _ m.move.board .O).oScore = s.oScore + 1
            rw [award_oScore, award_oScoreP, hsyncO]
            simp
            rfl
        · cases hmp : moverPiece s m with
          | X =>
            show (award _ m.move.board .X).oScore = s.oScore
            rw [award_oScore, award_oScoreP, hsyncO]
            simp
            rfl
          | O =>
            show (award _ m.move.board .O).xScore = s.xScore
            rw [award_xScore, award_xScoreP, hsyncX]
            simp
            rfl
        · rw [award_games_self2]
          rfl
        · rw [award_games_self2]
          show (match moverPiece s m with
            | Piece.X => (recordMove (occupyState s m (moverPiece s m)) m (moverPiece s m)).x
            | Piece.O => (recordMove (occupyState s m (moverPiece s m)) m
                (moverPiece s m)).o) = some m.playerID
          obtain ⟨hmx, hmo⟩ := moverPiece_slot s m hslot
          cases hmp : moverPiece s m with
          | X => exact hmx hmp
          | O => exact hmo hmp
        · rw [award_privateBoards]
          exact hl
        · intro b hb hwb
          rw [award_privateBoards]
          exact hlio b (moverPiece s m) hwb (fun hh => hb hh.1)
      · -- the no-award outcome
        have hlf : hasThreeInARow ((recordMove (occupyState s m (moverPiece s m)) m
            (moverPiece s m)).privateBoards (moverPiece s m) m.move.board) = false := by
          cases hres : hasThreeInARow ((recordMove (occupyState s m (moverPiece s m)) m
              (moverPiece s m)).privateBoards (moverPiece s m) m.move.board) with
          | false => rfl
          | true => exact absurd hres hl
        have hno : ∀ b, (recordMove (occupyState s m (moverPiece s m)) m
              (moverPiece s m)).boardWinners b = none →
            hasThreeInARow ((recordMove (occupyState s m (moverPiece s m)) m
              (moverPiece s m)).privateBoards .X b) = false ∧
            hasThreeInARow ((recordMove (occupyState s m (moverPiece s m)) m
              (moverPiece s m)).privateBoards .O b) = false := by
          intro b hwb
          by_cases hb : b = m.move.board
          · subst hb
            constructor
            · by_cases hx : moverPiece s m = Piece.X
              · rw [← hx]
                exact hlf
              · exact hlio m.move.board .X hwb (fun hh => hx hh.2.symm)
            · by_cases ho : moverPiece s m = Piece.O
              · rw [← ho]
                exact hlf
              · exact hlio m.move.board .O hwb (fun hh => ho hh.2.symm)
          · exact ⟨hlio b .X hwb (fun hh => hb hh.1), hlio b .O hwb (fun hh => hb hh.1)⟩
        refine ⟨recordMove (occupyState s m (moverPiece s m)) m (moverPiece s m),
          ?_, ⟨k1, k2, k3, k4, k5, k6, k7, k8, hno⟩, rfl, rfl, rfl, rfl, hst, hslot,
          Or.inl ⟨rfl, rfl, rfl, ?_⟩⟩
        · rw [applyMove_eq_occupy s m (moverPiece s m) hv hf, checkForWins_noop _ hno]
        · intro b hwb
          have hb := hno b hwb
          revert hb
          cases moverPiece s m
          · exact fun hb => hb.1
          · exact fun hb => hb.2
    | some occ =>
      have hocc := occupant_ne_piece s m (moverPiece s m) hc hv hf
      cases hvis : s.publiclyVisible m.move.board m.move.row m.move.col with
      | true =>
        have hcoh2 := coh_after_collision_seen s m (moverPiece s m) hc hv hf hocc hvis
        refine ⟨recordMove s m (moverPiece s m), ?_, hcoh2, rfl, rfl, rfl, rfl, hst, hslot,
          Or.inl ⟨rfl, rfl, rfl, ?_⟩⟩
        · rw [applyMove_eq_collision_seen s m (moverPiece s m) hv hf hocc hvis,
            checkForWins_noop _ (fun b hwb => hcoh2.2.2.2.2.2.2.2.2 b hwb)]
        · intro b hwb
          have hb := hcoh2.2.2.2.2.2.2.2.2 b hwb
          revert hb
          cases moverPiece s m
          · exact fun hb => hb.1
          · exact fun hb => hb.2
      | false =>
        have hcoh2 := coh_after_collision_reveal s m (moverPiece s m) hc hv hf hocc
        refine ⟨recordMove (revealState s m) m (moverPiece s m), ?_, hcoh2, rfl, rfl, rfl,
          rfl, hst, hslot, Or.inl ⟨rfl, rfl, rfl, ?_⟩⟩
        · rw [applyMove_eq_collision_reveal s m (moverPiece s m) hv hf hocc hvis,
            checkForWins_noop _ (fun b hwb => hcoh2.2.2.2.2.2.2.2.2 b hwb)]
        · intro b hwb
          have hb := hcoh2.2.2.2.2.2.2.2.2 b hwb
          revert hb
          cases moverPiece s m
          · exact fun hb => hb.1
          · exact fun hb => hb.2

/-! ### Supporting lemmas for the remaining claims -/

theorem mem_boardIds (b : BoardID) : b ∈ boardIds := by
  cases b <;> simp [boardIds]

/-- A sub-board records at most 9 moves: their cells are pairwise distinct
and in bounds. -/
theorem sub_len_le_9 (st : QState) (hb : SubBoundsInv st) (hn : SubNodupInv st)
    (b : BoardID) : (st.games b).moves.length ≤ 9 := by
  have hsub : subMoveKeys (st.games b) ⊆ cell9 := by
    intro q hq
    unfold subMoveKeys at hq
    rw [List.mem_map] at hq
    obtain ⟨mv, hmem, hpe⟩ := hq
    obtain ⟨hr, hcc⟩ := hb b mv hmem
    rw [mem_range3_iff] at hr hcc
    subst hpe
    have h1 : mv.row = 0 ∨ mv.row = 1 ∨ mv.row = 2 := by omega
    have h2 : mv.col = 0 ∨ mv.col = 1 ∨ mv.col = 2 := by omega
    rcases h1 with h1 | h1 | h1 <;> rcases h2 with h2 | h2 | h2 <;>
      simp [cell9, h1, h2]
  have hlen : (subMoveKeys (st.games b)).length ≤ cell9.length :=
    List.Subperm.length_le (List.subperm_of_subset (hn b) hsub)
  have hmap : (subMoveKeys (st.games b)).length = (st.games b).moves.length := by
    unfold subMoveKeys
    exact List.length_map _ _
  have h9 : cell9.length = 9 := rfl
  omega

/-- When a slot is occupied, the result's score record is nonempty. -/
theorem buildScores_isEmpty_false (x o : Option String) (xs os : Nat)
    (h : x.isSome = true ∨ o.isSome = true) :
    (buildScores x o xs os).isEmpty = false := by
  unfold buildScores
  cases x <;> cases o <;> simp_all

theorem endState_winner (st : QState) :
    (endState st).winner =
      (if st.xScoreP > st.oScoreP then st.x
       else if st.oScoreP > st.xScoreP then st.o else none) := by
  unfold endState
  dsimp only
  split_ifs <;> rfl

theorem endState_result (st : QState)
    (h : (buildScores st.x st.o st.xScoreP st.oScoreP).isEmpty = false) :
    (endState st).result =
      some { gameID := st.id, scores := buildScores st.x st.o st.xScoreP st.oScoreP } := by
  unfold endState
  dsimp only
  rw [if_neg (by rw [h]; exact Bool.false_ne_true)]

/-- One board contributes at most one point in total. -/
theorem won_both_le (w : Option Piece) :
    (if w = some Piece.X then 1 else 0) + (if w = some Piece.O then 1 else 0) ≤ 1 := by
  cases w with
  | none => simp
  | some q => cases q <;> simp

theorem countWon_sum_le (s : QState) : countWon s .X + countWon s .O ≤ 3 := by
  have hA := won_both_le (s.boardWinners .A)
  have hB := won_both_le (s.boardWinners .B)
  have hC := won_both_le (s.boardWinners .C)
  unfold countWon
  omega

/-- `_join` never touches scores or visibility. -/
theorem joinG_fields (s : QState) (pid : String) :
    (joinG s pid).1.xScore = s.xScore ∧ (joinG s pid).1.oScore = s.oScore ∧
    (joinG s pid).1.publiclyVisible = s.publiclyVisible := by
  unfold joinG
  split_ifs <;> exact ⟨rfl, rfl, rfl⟩

/-- `_leave` either rejects (no change), ends the game keeping scores and
visibility, or resets the instance to a fresh state. -/
theorem leaveG_cases (s : QState) (pid : String) :
    ((leaveG s pid).1.xScore = s.xScore ∧ (leaveG s pid).1.oScore = s.oScore ∧
     (leaveG s pid).1.publiclyVisible = s.publiclyVisible ∧
     (leaveG s pid).1.status = s.status) ∨
    ((leaveG s pid).1.status = GStatus.over ∧
     (leaveG s pid).1.xScore = s.xScore ∧ (leaveG s pid).1.oScore = s.oScore ∧
     (leaveG s pid).1.publiclyVisible = s.publiclyVisible) ∨
    ((leaveG s pid).1.status = GStatus.waitingToStart ∧
     (leaveG s pid).1.xScore = 0 ∧ (leaveG s pid).1.oScore = 0) := by
  unfold leaveG
  by_cases h1 : ¬(s.x = some pid) ∧ ¬(s.o = some pid)
  · rw [if_pos h1]
    exact Or.inl ⟨rfl, rfl, rfl, rfl⟩
  · rw [if_neg h1]
    dsimp only
    by_cases h2 : s.x.isSome = true ∧ s.o.isSome = true
    · rw [if_pos h2]
      exact Or.inr (Or.inl ⟨rfl, rfl, rfl, rfl⟩)
    · rw [if_neg h2]
      exact Or.inr (Or.inr ⟨rfl, rfl, rfl⟩)

theorem setVis_mono (vis : BoardID → Int → Int → Bool) (b0 : BoardID) (r0 c0 : Int)
    {b : BoardID} {r c : Int} (h : vis b r c = true) :
    setVis vis b0 r0 c0 b r c = true := by
  unfold setVis
  split_ifs with hh
  · rfl
  · exact h

/-- The accepted-move tail never changes visibility past its input state. -/
theorem finishMove_vis (s1 : QState) (m : GameMove) (p : Piece) :
    (finishMove s1 m p).1.publiclyVisible = s1.publiclyVisible := by
  unfold finishMove
  dsimp only
  rw [(checkForGameEnding_fields _).2.2.2.1, (checkForWins_fields _).2.2.2.2.2.2.1]

/-- `applyMove` never clears a visible cell. -/
theorem applyMove_vis_mono (s : QState) (m : GameMove) {b : BoardID} {r c : Int}
    (h : s.publiclyVisible b r c = true) :
    (applyMove s m).1.publiclyVisible b r c = true := by
  unfold applyMove
  split
  · exact h
  · split
    · rw [finishMove_vis]
      exact h
    · split
      · exact h
      · rw [finishMove_vis]
        split_ifs with hv
        · exact h
        · exact setVis_mono _ _ _ _ h

/-- All three cells of a listed line are occupied. -/
theorem line_all {g : Int → Int → Bool} {a1 a2 b1 b2 c1 c2 : Int}
    (h1 : g a1 a2 = true) (h2 : g b1 b2 = true) (h3 : g c1 c2 = true) :
    ∀ q ∈ [(a1, a2), (b1, b2), (c1, c2)], g q.1 q.2 = true := by
  intro q hq
  simp only [List.mem_cons, List.not_mem_nil, or_false] at hq
  rcases hq with rfl | rfl | rfl
  · exact h1
  · exact h2
  · exact h3

/-- `_hasThreeInARow` holds exactly when one of the 8 lines is fully
occupied. -/
theorem hasThreeInARow_iff_lines (g : Int → Int → Bool) :
    hasThreeInARow g = true ↔ ∃ l ∈ lines8, ∀ q ∈ l, g q.1 q.2 = true := by
  constructor
  · intro h
    simp only [hasThreeInARow, Bool.or_eq_true, Bool.and_eq_true] at h
    rcases h with ((((((h | h) | h) | h) | h) | h) | h) | h <;>
      obtain ⟨⟨h1, h2⟩, h3⟩ := h
    · exact ⟨[(0, 0), (0, 1), (0, 2)], by simp [lines8], line_all h1 h2 h3⟩
    · exact ⟨[(0, 0), (1, 0), (2, 0)], by simp [lines8], line_all h1 h2 h3⟩
    · exact ⟨[(1, 0), (1, 1), (1, 2)], by simp [lines8], line_all h1 h2 h3⟩
    · exact ⟨[(0, 1), (1, 1), (2, 1)], by simp [lines8], line_all h1 h2 h3⟩
    · exact ⟨[(2, 0), (2, 1), (2, 2)], by simp [lines8], line_all h1 h2 h3⟩
    · exact ⟨[(0, 2), (1, 2), (2, 2)], by simp [lines8], line_all h1 h2 h3⟩
    · exact ⟨[(0, 0), (1, 1), (2, 2)], by simp [lines8], line_all h1 h2 h3⟩
    · exact ⟨[(0, 2), (1, 1), (2, 0)], by simp [lines8], line_all h1 h2 h3⟩
  · rintro ⟨l, hl, hall⟩
    simp only [lines8, List.mem_cons, List.not_mem_nil, or_false] at hl
    rcases hl with rfl | rfl | rfl | rfl | rfl | rfl | rfl | rfl
    · have a1 : g 0 0 = true := hall (0, 0) (by simp)
      have a2 : g 0 1 = true := hall (0, 1) (by simp)
      have a3 : g 0 2 = true := hall (0, 2) (by simp)
      simp [hasThreeInARow, a1, a2, a3]
    · have a1 : g 1 0 = true := hall (1, 0) (by simp)
      have a2 : g 1 1 = true := hall (1, 1) (by simp)
      have a3 : g 1 2 = true := hall (1, 2) (by simp)
      simp [hasThreeInARow, a1, a2, a3]
    · have a1 : g 2 0 = true := hall (2, 0) (by simp)
      have a2 : g 2 1 = true := hall (2, 1) (by simp)
      have a3 : g 2 2 = true := hall (2, 2) (by simp)
      simp [hasThreeInARow, a1, a2, a3]
    · have a1 : g 0 0 = true := hall (0, 0) (by simp)
      have a2 : g 1 0 = true := hall (1, 0) (by simp)
      have a3 : g 2 0 = true := hall (2, 0) (by simp)
      simp [hasThreeInARow, a1, a2, a3]
    · have a1 : g 0 1 = true := hall (0, 1) (by simp)
      have a2 : g 1 1 = true := hall (1, 1) (by simp)
      have a3 : g 2 1 = true := hall (2, 1) (by simp)
      simp [hasThreeInARow, a1, a2, a3]
    · have a1 : g 0 2 = true := hall (0, 2) (by simp)
      have a2 : g 1 2 = true := hall (1, 2) (by simp)
      have a3 : g 2 2 = true := hall (2, 2) (by simp)
      simp [hasThreeInARow, a1, a2, a3]
    · have a1 : g 0 0 = true := hall (0, 0) (by simp)
      have a2 : g 1 1 = true := hall (1, 1) (by simp)
      have a3 : g 2 2 = true := hall (2, 2) (by simp)
      simp [hasThreeInARow, a1, a2, a3]
    · have a1 : g 0 2 = true := hall (0, 2) (by simp)
      have a2 : g 1 1 = true := hall (1, 1) (by simp)
      have a3 : g 2 0 = true := hall (2, 0) (by simp)
      simp [hasThreeInARow, a1, a2, a3]

/-- The two hidden grids are never both set at one cell: the sub-board holds
at most one move per cell, and the grids mirror the sub-board. -/
theorem not_both_priv (s : QState) (hn : SubNodupInv s) (hp : PrivInv s)
    (p : Piece) (b : BoardID) {r c : Int} (hr : r ∈ range3) (hc : c ∈ range3) :
    ¬(s.privateBoards p b r c = true ∧ s.privateBoards p.other b r c = true) := by
  rintro ⟨h1, h2⟩
  obtain ⟨mv1, hm1, hp1, hr1, hc1⟩ := (hp p b r hr c hc).1 h1
  obtain ⟨mv2, hm2, hp2, hr2, hc2⟩ := (hp p.other b r hr c hc).1 h2
  have hd : ((s.games b).moves.map fun mv => (mv.row, mv.col)).Nodup := hn b
  have hkey : (fun mv : TTTMove => (mv.row, mv.col)) mv1 =
      (fun mv : TTTMove => (mv.row, mv.col)) mv2 := by
    simp [hr1, hc1, hr2, hc2]
  have heq : mv1 = mv2 := List.inj_on_of_nodup_map hd hm1 hm2 hkey
  rw [heq] at hp1
  have hpp : p = p.other := hp1.symm.trans hp2
  cases p <;> simp [Piece.other] at hpp

/-! ### The claim theorems -/

/-- C1: on every reachable state, `applyMove` answers exactly the claim's
first-failing-check function: `GameNotInProgress` when the status is not
`IN_PROGRESS`; `PlayerNotInGame` when the mover holds neither slot;
`NotYourTurn` when the accepted-move-count parity does not match the mover's
piece; `InvalidPosition` when the row or column leaves [0,2]; then
`InvalidPosition` when the target board already has a winner;
`PositionNotEmpty` when the mover's own piece already occupies the cell; and
acceptance (`none`) when every check passes. -/
theorem c1_first_failing_check (s : QState) (m : GameMove) (h : Reachable s) :
    (applyMove s m).2 = specFirstError s m := by
  have hc := reachable_coh h
  have hmc : s.moveCount = s.moves.length := hc.2.2.2.2.2.2.2.1
  have heq := validateMove_eq_spec s m hmc
  cases hv : validateMove s m with
  | error e =>
    rw [hv] at heq
    rw [applyMove_err_of_validate s m e hv]
    cases hspec : specFirstError s m with
    | some e2 =>
      rw [hspec] at heq
      injection heq with hee
      rw [hee]
    | none =>
      rw [hspec] at heq
      cases heq
  | ok p =>
    obtain ⟨hpm, hspec⟩ := validateMove_ok_facts s m p hmc hv
    rw [hspec]
    cases hf : (s.games m.move.board).moves.find?
        (fun mv => mv.row == m.move.row && mv.col == m.move.col) with
    | none => rw [applyMove_eq_occupy s m p hv hf]
    | some occ =>
      have hocc := occupant_ne_piece s m p hc hv hf
      cases hvis : s.publiclyVisible m.move.board m.move.row m.move.col with
      | true => rw [applyMove_eq_collision_seen s m p hv hf hocc hvis]
      | false => rw [applyMove_eq_collision_reveal s m p hv hf hocc hvis]

/-- Witness for C1: a move by a player who is in neither slot fails with
exactly `PlayerNotInGame`. -/
theorem c1_witness :
    (applyMove st2 (mkGameMove "carol" .A 0 0 .X)).2 = some GameErr.playerNotInGame :=
  (c1_first_failing_check st2 (mkGameMove "carol" .A 0 0 .X) reachable_st2).trans (by decide)

/-- C2: after every accepted move the game is `OVER` exactly when each of the
three boards either has an assigned winner or holds 9 recorded sub-board
moves; and on ending, the declared winner is the player whose (published)
score is strictly greater — a tie yields no winner — while the result record
carries the scores of the occupied player slots. -/
theorem c2_game_ending (s : QState) (m : GameMove) (h : Reachable s)
    (hacc : (applyMove s m).2 = none) :
    ((applyMove s m).1.status = GStatus.over ↔
      ∀ b, ((applyMove s m).1.boardWinners b).isSome = true ∨
        ((applyMove s m).1.games b).moves.length = 9) ∧
    ((applyMove s m).1.status = GStatus.over →
      (applyMove s m).1.winner =
        (if (applyMove s m).1.xScore > (applyMove s m).1.oScore then (applyMove s m).1.x
         else if (applyMove s m).1.oScore > (applyMove s m).1.xScore then (applyMove s m).1.o
         else none) ∧
      (applyMove s m).1.result =
        some { gameID := (applyMove s m).1.id,
               scores := buildScores (applyMove s m).1.x (applyMove s m).1.o
                 (applyMove s m).1.xScore (applyMove s m).1.oScore }) := by
  obtain ⟨st3, heq, hcoh3, hst3s, hx3, ho3, hid3, hstIn, hslot, _⟩ :=
    applyMove_accept_decomp s m (reachable_coh h) hacc
  have h1 : (applyMove s m).1 = checkForGameEnding st3 := by rw [heq]
  rw [h1]
  have hne : st3.status ≠ GStatus.over := by
    rw [hst3s, hstIn]
    intro hh
    cases hh
  cases ha : boardIds.any fun b =>
      (st3.boardWinners b).isNone && decide ((st3.games b).moves.length < 9) with
  | true =>
    rw [checkForGameEnding_avail st3 hne ha]
    obtain ⟨b0, _, hb0⟩ := List.any_eq_true.mp ha
    rw [Bool.and_eq_true] at hb0
    obtain ⟨hb0w, hb0l⟩ := hb0
    rw [Option.isNone_iff_eq_none] at hb0w
    rw [decide_eq_true_iff] at hb0l
    constructor
    · constructor
      · intro hov
        exact absurd hov hne
      · intro hall
        rcases hall b0 with hh | hh
        · rw [hb0w] at hh
          cases hh
        · omega
    · intro hov
      exact absurd hov hne
  | false =>
    rw [checkForGameEnding_end st3 hne ha]
    have hall : ∀ b, (st3.boardWinners b).isSome = true ∨
        (st3.games b).moves.length = 9 := by
      intro b
      cases hwv : st3.boardWinners b with
      | some w => exact Or.inl rfl
      | none =>
        right
        have hle := sub_len_le_9 st3 hcoh3.1 hcoh3.2.1 b
        by_contra hlt
        have hpred : ((st3.boardWinners b).isNone &&
            decide ((st3.games b).moves.length < 9)) = true := by
          rw [hwv]
          simp only [Option.isNone_none, Bool.true_and, decide_eq_true_iff]
          omega
        have hany : (boardIds.any fun b =>
            (st3.boardWinners b).isNone && decide ((st3.games b).moves.length < 9)) = true :=
          List.any_eq_true.mpr ⟨b, mem_boardIds b, hpred⟩
        rw [ha] at hany
        cases hany
    obtain ⟨e1, e2, e3, e4, e5, e6, e7, e8, e9, e10, e11, e12, e13, e14⟩ :=
      endState_fields st3
    have hsX : st3.xScore = st3.xScoreP := hcoh3.2.2.2.2.2.2.1.2.2.1
    have hsO : st3.oScore = st3.oScoreP := hcoh3.2.2.2.2.2.2.1.2.2.2
    constructor
    · constructor
      · intro _ b
        rw [e10, e2]
        exact hall b
      · intro _
        exact e14
    · intro _
      constructor
      · simp only [e5, e6, e11, e12, hsX, hsO]
        exact endState_winner st3
      · have hbs : (buildScores st3.x st3.o st3.xScoreP st3.oScoreP).isEmpty = false := by
          apply buildScores_isEmpty_false
          rcases hslot with hh | hh
          · left
            rw [hx3, hh]
            rfl
          · right
            rw [ho3, hh]
            rfl
        simp only [e5, e6, e11, e12, e13, hsX, hsO]
        exact endState_result st3 hbs

/-- Witness for C2: alice's first move is accepted and the resulting state
satisfies the ending equivalence (here: not `OVER`, a winnerless board with
fewer than 9 moves remaining). -/
theorem c2_witness :
    (applyMove st2 (mkGameMove "alice" .A 0 0 .X)).2 = none ∧
    ((applyMove st2 (mkGameMove "alice" .A 0 0 .X)).1.status = GStatus.over ↔
      ∀ b, ((applyMove st2 (mkGameMove "alice" .A 0 0 .X)).1.boardWinners b).isSome = true ∨
        ((applyMove st2 (mkGameMove "alice" .A 0 0 .X)).1.games b).moves.length = 9) :=
  ⟨by decide,
    (c2_game_ending st2 (mkGameMove "alice" .A 0 0 .X) reachable_st2 (by decide)).1⟩

/-- C3: in every reachable state a cell is publicly visible exactly when a
collision has occurred there (both pieces have played it), and no operation
of the engine resets a visible cell while the game remains `IN_PROGRESS`. -/
theorem c3_visible_iff_collision (s : QState) (h : Reachable s) :
    (∀ b : BoardID, ∀ r ∈ range3, ∀ c ∈ range3,
      (s.publiclyVisible b r c = true ↔ bothPlayed s b r c)) ∧
    (∀ s3 b r c, Step s s3 → s.publiclyVisible b r c = true →
      s3.status = GStatus.inProgress → s3.publiclyVisible b r c = true) := by
  refine ⟨(reachable_coh h).2.2.2.2.2.1, ?_⟩
  rintro s3 b r c (⟨pid, rfl⟩ | ⟨pid, rfl⟩ | ⟨m, rfl⟩) hvis hst
  · rw [(joinG_fields s pid).2.2]
    exact hvis
  · rcases leaveG_cases s pid with ⟨_, _, hv, _⟩ | ⟨_, _, _, hv⟩ | ⟨hstw, _, _⟩
    · rw [hv]
      exact hvis
    · rw [hv]
      exact hvis
    · rw [hstw] at hst
      cases hst
  · exact applyMove_vis_mono s m hvis

/-- Witness for C3 at the post-collision state `cu2`: the collided cell
A(0,0) is publicly visible, and the iff certifies both pieces played it. -/
theorem c3_witness :
    cu2.publiclyVisible .A 0 0 = true ∧ bothPlayed cu2 .A 0 0 :=
  ⟨by decide,
    ((c3_visible_iff_collision cu2
      (Reachable.move _ (Reachable.move _ reachable_st2))).1
      .A 0 (by decide) 0 (by decide)).mp (by decide)⟩

/-- C6 (amended): in every reachable state the published scores count the
boards won by each piece (so each board contributes a point at most once, to
its single winner) and `xScore + oScore ≤ 3`; `join` and `applyMove` never
decrease a score, while `leave` either keeps both scores or resets the whole
instance to the zero-score `WAITING_TO_START` state.  (The unamended claim's
"never decrease over the lifetime" fails on that reset: see the
counterexample.) -/
theorem c6_amended_score_accounting (s : QState) (h : Reachable s) :
    s.xScore = countWon s .X ∧ s.oScore = countWon s .O ∧
    s.xScore + s.oScore ≤ 3 ∧
    (∀ m, s.xScore ≤ (applyMove s m).1.xScore ∧ s.oScore ≤ (applyMove s m).1.oScore) ∧
    (∀ pid, (joinG s pid).1.xScore = s.xScore ∧ (joinG s pid).1.oScore = s.oScore) ∧
    (∀ pid, ((leaveG s pid).1.xScore = s.xScore ∧ (leaveG s pid).1.oScore = s.oScore) ∨
      ((leaveG s pid).1.status = GStatus.waitingToStart ∧
       (leaveG s pid).1.xScore = 0 ∧ (leaveG s pid).1.oScore = 0)) := by
  have hc := reachable_coh h
  obtain ⟨hxp, hop, hxx, hoo⟩ := hc.2.2.2.2.2.2.1
  have hX : s.xScore = countWon s .X := hxx.trans hxp
  have hO : s.oScore = countWon s .O := hoo.trans hop
  refine ⟨hX, hO, ?_, ?_, ?_, ?_⟩
  · have hs := countWon_sum_le s
    omega
  · intro m
    cases hacc : (applyMove s m).2 with
    | some e =>
      rw [applyMove_err_fst s m e hacc]
      exact ⟨Nat.le_refl _, Nat.le_refl _⟩
    | none =>
      obtain ⟨st3, heq, hcoh3, _, _, _, _, _, _, hdisj⟩ :=
        applyMove_accept_decomp s m hc hacc
      have h1 : (applyMove s m).1 = checkForGameEnding st3 := by rw [heq]
      obtain ⟨_, _, _, _, g5, g6, _⟩ := checkForGameEnding_fields st3
      rw [h1, g5, g6]
      rcases hdisj with ⟨_, hxs, hos, _⟩ | ⟨_, _, hsc1, hsc2, _⟩
      · rw [hxs, hos]
        exact ⟨Nat.le_refl _, Nat.le_refl _⟩
      · cases hmp : moverPiece s m with
        | X =>
          rw [hmp] at hsc1 hsc2
          simp only [scoreOf, Piece.other] at hsc1 hsc2
          omega
        | O =>
          rw [hmp] at hsc1 hsc2
          simp only [scoreOf, Piece.other] at hsc1 hsc2
          omega
  · intro pid
    exact ⟨(joinG_fields s pid).1, (joinG_fields s pid).2.1⟩
  · intro pid
    rcases leaveG_cases s pid with ⟨hx, ho, _, _⟩ | ⟨_, hx, ho, _⟩ | ⟨hw, hx, ho⟩
    · exact Or.inl ⟨hx, ho⟩
    · exact Or.inl ⟨hx, ho⟩
    · exact Or.inr ⟨hw, hx, ho⟩

/-- Witness for the amended C6 at `cw5` (where X has already scored board
A): the published scores sum to at most 3. -/
theorem c6_amended_witness : cw5.xScore + cw5.oScore ≤ 3 :=
  (c6_amended_score_accounting cw5 reachable_cw5).2.2.1

/-- C8: every accepted move runs win detection producing an intermediate
state `st3` that termination detection maps to the final state, and either
no line of the 8 (3 rows, 3 columns, 2 diagonals) is complete for the mover
on the played board and nothing changes (no board winner for either piece,
no score change — the non-mover's occupancy never yields an award), or the
mover completes a line on the played, previously winnerless board: that
board's winner becomes the mover's piece, the mover's score grows by exactly
1, the other score is unchanged, and the sub-board is marked `OVER` with the
scoring player's id as winner. -/
theorem c8_win_detection_mover_only (s : QState) (m : GameMove) (h : Reachable s)
    (hacc : (applyMove s m).2 = none) :
    ∃ st3 : QState,
      applyMove s m = (checkForGameEnding st3, none) ∧
      (((¬∃ l ∈ lines8, ∀ q ∈ l,
           st3.privateBoards (moverPiece s m) m.move.board q.1 q.2 = true) ∧
        st3.boardWinners = s.boardWinners ∧
        st3.xScore = s.xScore ∧ st3.oScore = s.oScore) ∨
       ((∃ l ∈ lines8, ∀ q ∈ l,
           st3.privateBoards (moverPiece s m) m.move.board q.1 q.2 = true) ∧
        s.boardWinners m.move.board = none ∧
        st3.boardWinners = updF s.boardWinners m.move.board (some (moverPiece s m)) ∧
        scoreOf st3 (moverPiece s m) = scoreOf s (moverPiece s m) + 1 ∧
        scoreOf st3 (moverPiece s m).other = scoreOf s (moverPiece s m).other ∧
        (st3.games m.move.board).status = GStatus.over ∧
        (st3.games m.move.board).winner = some m.playerID)) := by
  have hc := reachable_coh h
  obtain ⟨st3, heq, hcoh3, hst3s, hx3, ho3, hid3, hstIn, hslot, hdisj⟩ :=
    applyMove_accept_decomp s m hc hacc
  have hwbd : s.boardWinners m.move.board = none := by
    cases hv : validateMove s m with
    | error e =>
      rw [applyMove_err_of_validate s m e hv] at hacc
      cases hacc
    | ok p => exact (accepted_facts s m p hc hv).2.2.2.1
  refine ⟨st3, heq, ?_⟩
  rcases hdisj with ⟨hbw, hxs, hos, hli⟩ | ⟨hbw, _, hsc1, hsc2, hgst, hgw, hline, _⟩
  · refine Or.inl ⟨?_, hbw, hxs, hos⟩
    rw [← hasThreeInARow_iff_lines, hli m.move.board hwbd]
    exact Bool.false_ne_true
  · exact Or.inr ⟨(hasThreeInARow_iff_lines _).mp hline, hwbd, hbw, hsc1, hsc2, hgst, hgw⟩

/-- Witness for C8: X's fifth move completes the top row of board A; the
accepted move satisfies the win-detection anatomy. -/
theorem c8_witness :
    (applyMove cw4 (mkGameMove "alice" .A 0 2 .X)).2 = none ∧
    ∃ st3 : QState,
      applyMove cw4 (mkGameMove "alice" .A 0 2 .X) = (checkForGameEnding st3, none) ∧
      (((¬∃ l ∈ lines8, ∀ q ∈ l,
           st3.privateBoards (moverPiece cw4 (mkGameMove "alice" .A 0 2 .X))
             BoardID.A q.1 q.2 = true) ∧
        st3.boardWinners = cw4.boardWinners ∧
        st3.xScore = cw4.xScore ∧ st3.oScore = cw4.oScore) ∨
       ((∃ l ∈ lines8, ∀ q ∈ l,
           st3.privateBoards (moverPiece cw4 (mkGameMove "alice" .A 0 2 .X))
             BoardID.A q.1 q.2 = true) ∧
        cw4.boardWinners BoardID.A = none ∧
        st3.boardWinners = updF cw4.boardWinners BoardID.A
          (some (moverPiece cw4 (mkGameMove "alice" .A 0 2 .X))) ∧
        scoreOf st3 (moverPiece cw4 (mkGameMove "alice" .A 0 2 .X)) =
          scoreOf cw4 (moverPiece cw4 (mkGameMove "alice" .A 0 2 .X)) + 1 ∧
        scoreOf st3 (moverPiece cw4 (mkGameMove "alice" .A 0 2 .X)).other =
          scoreOf cw4 (moverPiece cw4 (mkGameMove "alice" .A 0 2 .X)).other ∧
        (st3.games BoardID.A).status = GStatus.over ∧
        (st3.games BoardID.A).winner = some "alice")) :=
  ⟨by decide,
    c8_win_detection_mover_only cw4 (mkGameMove "alice" .A 0 2 .X) reachable_cw4 (by decide)⟩

/-- C10: in every reachable state the two hidden occupancy grids are never
both set at one cell; and an accepted collision move (the target cell already
holds a sub-board move) changes neither the hidden occupancy table — in
particular the mover's grid stays false at the collided cell, so the cell
never counts toward that piece's three-in-a-row, which reads only this
grid — nor any sub-board move list: only public visibility is updated. -/
theorem c10_collision_updates_only_visibility (s : QState) (h : Reachable s) :
    (∀ p : Piece, ∀ b : BoardID, ∀ r ∈ range3, ∀ c ∈ range3,
      ¬(s.privateBoards p b r c = true ∧ s.privateBoards p.other b r c = true)) ∧
    (∀ m occ, (applyMove s m).2 = none →
      (s.games m.move.board).moves.find?
        (fun mv => mv.row == m.move.row && mv.col == m.move.col) = some occ →
      (applyMove s m).1.privateBoards = s.privateBoards ∧
      s.privateBoards (moverPiece s m) m.move.board m.move.row m.move.col = false ∧
      (∀ b, ((applyMove s m).1.games b).moves = (s.games b).moves)) := by
  have hc := reachable_coh h
  constructor
  · intro p b r hr c hcc
    exact not_both_priv s hc.2.1 hc.2.2.1 p b hr hcc
  · intro m occ hacc hf
    cases hv : validateMove s m with
    | error e =>
      rw [applyMove_err_of_validate s m e hv] at hacc
      cases hacc
    | ok p =>
      have hmc : s.moveCount = s.moves.length := hc.2.2.2.2.2.2.2.1
      obtain ⟨hpm, _⟩ := validateMove_ok_facts s m p hmc hv
      have hocc := occupant_ne_piece s m p hc hv hf
      have h1 : ∃ s1 : QState, s1.privateBoards = s.privateBoards ∧ s1.games = s.games ∧
          applyMove s m = (checkForGameEnding (checkForWins (recordMove s1 m p)), none) := by
        cases hvis : s.publiclyVisible m.move.board m.move.row m.move.col with
        | true => exact ⟨s, rfl, rfl, applyMove_eq_collision_seen s m p hv hf hocc hvis⟩
        | false => exact ⟨revealState s m, rfl, rfl,
            applyMove_eq_collision_reveal s m p hv hf hocc hvis⟩
      obtain ⟨s1, hp1, hg1, heq⟩ := h1
      have hfst : (applyMove s m).1 = checkForGameEnding (checkForWins (recordMove s1 m p)) := by
        rw [heq]
      refine ⟨?_, ?_, ?_⟩
      · rw [hfst, (checkForGameEnding_fields _).2.2.1,
          (checkForWins_fields _).2.2.2.2.2.2.2.1]
        exact hp1
      · have hpf := (accepted_facts s m p hc hv).2.2.2.2
        rw [hpm] at hpf
        exact hpf
      · intro b
        rw [hfst, (checkForGameEnding_fields _).2.1, checkForWins_games_moves]
        show (s1.games b).moves = (s.games b).moves
        rw [hg1]

/-- Witness for C10: bob's colliding play of A(0,0) (already occupied by X)
leaves every hidden grid and every sub-board move list unchanged. -/
theorem c10_witness :
    (applyMove cu1 (mkGameMove "bob" .A 0 0 .O)).1.privateBoards = cu1.privateBoards ∧
    cu1.privateBoards (moverPiece cu1 (mkGameMove "bob" .A 0 0 .O)) .A 0 0 = false ∧
    (∀ b, ((applyMove cu1 (mkGameMove "bob" .A 0 0 .O)).1.games b).moves =
      (cu1.games b).moves) :=
  (c10_collision_updates_only_visibility cu1 (Reachable.move _ reachable_st2)).2
    (mkGameMove "bob" .A 0 0 .O) { gamePiece := .X, row := 0, col := 0 }
    (by decide) (by decide)

end QuantumTTT
